import Mathlib

/-!
Verification of the bulk-mail relay server (`src/server.js`).

Strings are modelled as lists of Unicode code points (`List Nat`).  Every
definition below is a direct shallow embedding of the corresponding
JavaScript in `src/server.js`; comments cite the line ranges embedded.
-/

set_option maxRecDepth 10000

/-! ## Character classes

`isWS` is the character class of the JavaScript regex `\s`
(ECMA-262 WhiteSpace ∪ LineTerminator), which is also the class used by
`String.prototype.trim`. -/

def isWS (n : Nat) : Bool :=
  decide (n = 9 ∨ n = 10 ∨ n = 11 ∨ n = 12 ∨ n = 13 ∨ n = 32 ∨ n = 160 ∨
    n = 5760 ∨ (8192 ≤ n ∧ n ≤ 8202) ∨ n = 8232 ∨ n = 8233 ∨ n = 8239 ∨
    n = 8287 ∨ n = 12288 ∨ n = 65279)

/-- `[A-Z]`, the class used by the all-caps check in `safeSubject`. -/
def isUpperAZ (n : Nat) : Bool := decide (65 ≤ n ∧ n ≤ 90)

/-- ASCII lower-casing of a single code point (what `toLowerCase` and the
`i` regex flag do on the ASCII letters this program matches). -/
def lowerAZ (n : Nat) : Nat := if isUpperAZ n then n + 32 else n

/-- Lower-case a whole string. -/
def low (xs : List Nat) : List Nat := xs.map lowerAZ

/-! ## Server constants (`src/server.js` lines 22-24) -/

def HOURLY_LIMIT : Nat := 28
def PARALLEL : Nat := 3
def DELAY_MS : Nat := 120

/-! ## Trim (JS `String.prototype.trim`) -/

/-- Drop trailing whitespace. -/
def dropTrail : List Nat → List Nat
  | [] => []
  | c :: rest =>
    match dropTrail rest with
    | [] => if isWS c then [] else [c]
    | d :: t => c :: d :: t

/-- `s.trim()`. -/
def trimWS (xs : List Nat) : List Nat := dropTrail (xs.dropWhile (fun c => isWS c))

/-! ## Recipient parsing (`src/server.js` lines 110-113)

`to.split(/,|\r?\n/).map(r => r.trim()).filter(r => r.includes("@"))` -/

/-- `to.split(/,|\r?\n/)`: split at `','`, `"\r\n"` or `'\n'`; a lone
`'\r'` is not a separator. -/
def splitRecip : List Nat → List (List Nat)
  | [] => [[]]
  | [c] => if c = 44 ∨ c = 10 then [[], []] else [[c]]
  | c :: d :: rest =>
    if c = 44 then [] :: splitRecip (d :: rest)
    else if c = 13 ∧ d = 10 then [] :: splitRecip rest
    else if c = 10 then [] :: splitRecip (d :: rest)
    else
      match splitRecip (d :: rest) with
      | [] => [[c]]
      | t :: ts => (c :: t) :: ts

/-- The parsed recipient list of a `/send` request. -/
def parseRecipients (toAddr : List Nat) : List (List Nat) :=
  ((splitRecip toAddr).map trimWS).filter (fun r => r.contains 64)

/-! ## Batch dispatcher (`src/server.js` lines 71-89, `sendSafely`)

The loop `for (let i = 0; i < mails.length; i += PARALLEL)` slices the mail
list into consecutive groups of `PARALLEL = 3`.  Each group is sent with
`Promise.allSettled`; fulfilled promises are counted; after every group
(including the last) it awaits a `DELAY_MS` timeout.  The per-message
outcome is abstracted by an oracle `ok`; the model returns the pair
(number of fulfilled sends, number of delays awaited). -/

def chunks3 {α : Type} : List α → List (List α)
  | [] => []
  | [a] => [[a]]
  | [a, b] => [[a, b]]
  | a :: b :: c :: rest => [a, b, c] :: chunks3 rest

def sendSafely {α : Type} (ok : α → Bool) : List α → Nat × Nat
  | [] => (0, 0)
  | [a] => (List.countP ok [a], 1)
  | [a, b] => (List.countP ok [a, b], 1)
  | a :: b :: c :: rest =>
    let r := sendSafely ok rest
    (List.countP ok [a, b, c] + r.1, 1 + r.2)

/-! ## Quota store (`src/server.js` lines 27, 100, 154)

`stats` is a plain object mapping a gmail address to `{count}`; modelled
as an association list. -/

abbrev Stats := List (List Nat × Nat)

def lookupC : Stats → List Nat → Option Nat
  | [], _ => none
  | (k, v) :: rest, g => if k = g then some v else lookupC rest g

/-- `stats[gmail].count`, 0 when the account has no record. -/
def getCount (st : Stats) (g : List Nat) : Nat := (lookupC st g).getD 0

/-- `if (!stats[gmail]) stats[gmail] = { count: 0 }` (line 100). -/
def ensure (st : Stats) (g : List Nat) : Stats :=
  if lookupC st g = none then (g, 0) :: st else st

/-- `stats[gmail].count += sent` (line 154): overwrite the count. -/
def updateC : Stats → List Nat → Nat → Stats
  | [], g, n => [(g, n)]
  | (k, v) :: rest, g, n =>
    if k = g then (g, n) :: rest else (k, v) :: updateC rest g n

/-! ## The `/send` handler (`src/server.js` lines 92-161)

The response JSON always carries `success` and `count`; `msg` only on
failure, `sent` only on success.  `verifyOk` abstracts the outcome of
`transporter.verify()`; `ok` is the per-message dispatch oracle. -/

inductive Msg
  | missingFields
  | hourlyLimitReached
  | limitFull
  | wrongAppPassword
deriving DecidableEq

/-- The exact `msg` texts of `src/server.js`. -/
def msgText : Msg → String
  | .missingFields => "Missing Fields ❌"
  | .hourlyLimitReached => "This Gmail ID hourly limit reached ❌"
  | .limitFull => "This Gmail ID limit full ❌"
  | .wrongAppPassword => "Wrong App Password ❌"

structure Resp where
  success : Bool
  msg : Option Msg
  sent : Option Nat
  count : Nat
deriving DecidableEq

structure Req where
  senderName : List Nat
  gmail : List Nat
  apppass : List Nat
  toAddr : List Nat  -- the `to` field (`to` is a reserved word in Lean)
  subject : List Nat
  message : List Nat

/-- `if (!gmail || !apppass || !to || !subject || !message)` (line 95):
an absent field and an empty string are both falsy; `senderName` is not
checked. -/
def missingB (r : Req) : Bool :=
  r.gmail.isEmpty || r.apppass.isEmpty || r.toAddr.isEmpty ||
  r.subject.isEmpty || r.message.isEmpty

def handle (st : Stats) (r : Req) (verifyOk : Bool) (ok : Nat → Bool) :
    Stats × Resp :=
  if missingB r then
    (st, ⟨false, some Msg.missingFields, none, 0⟩)
  else
    let st1 := ensure st r.gmail
    let c := getCount st1 r.gmail
    if HOURLY_LIMIT ≤ c then
      (st1, ⟨false, some Msg.hourlyLimitReached, none, c⟩)
    else
      let recipients := parseRecipients r.toAddr
      let remaining := HOURLY_LIMIT - c
      if remaining < recipients.length then
        (st1, ⟨false, some Msg.limitFull, none, c⟩)
      else if verifyOk = false then
        (st1, ⟨false, some Msg.wrongAppPassword, none, c⟩)
      else
        let sent := (sendSafely ok (List.range recipients.length)).1
        let st2 := updateC st1 r.gmail (c + sent)
        (st2, ⟨true, none, some sent, c + sent⟩)

/-- Sequential (single-threaded) execution of a list of `/send` requests,
each with its verification outcome and dispatch oracle. -/
def runTrace (st : Stats) : List (Req × Bool × (Nat → Bool)) → Stats
  | [] => st
  | (r, v, ok) :: rest => runTrace (handle st r v ok).1 rest

/-! ## Subject normalizer (`src/server.js` lines 38-45, `safeSubject`)

```js
s.replace(/\s{2,}/g, " ")
 .replace(/([!?])\1+/g, "$1")
 .replace(/^[A-Z\s]+$/, t => t.toLowerCase())
 .replace(/free|urgent|act now/gi, "")
 .trim()
```
-/

/-- `replace(/\s{2,}/g, " ")`: a run of two or more whitespace characters
becomes a single space; a lone whitespace character is kept as-is.  The
flag records whether we are inside a run that has already been replaced. -/
def collWSaux : Bool → List Nat → List Nat
  | _, [] => []
  | true, c :: rest =>
    if isWS c then collWSaux true rest else c :: collWSaux false rest
  | false, [c] => [c]
  | false, c :: d :: rest =>
    if isWS c then
      if isWS d then 32 :: collWSaux true (d :: rest)
      else c :: collWSaux false (d :: rest)
    else c :: collWSaux false (d :: rest)

def collapseWS (xs : List Nat) : List Nat := collWSaux false xs

/-- `replace(/([!?])\1+/g, "$1")`: a run of two or more equal `!` or `?`
characters becomes a single one.  `prev = some p` while skipping the
remainder of a run of `p`. -/
def collPunctAux : Option Nat → List Nat → List Nat
  | _, [] => []
  | prev, c :: rest =>
    if prev = some c then collPunctAux prev rest
    else if c = 33 ∨ c = 63 then c :: collPunctAux (some c) rest
    else c :: collPunctAux none rest

def collapsePunct (xs : List Nat) : List Nat := collPunctAux none xs

/-- `[A-Z]` or `\s`: the class of `/^[A-Z\s]+$/`. -/
def capsAll (xs : List Nat) : Bool := xs.all (fun c => isUpperAZ c || isWS c)

/-- `replace(/^[A-Z\s]+$/, t => t.toLowerCase())`: the whole string is
lower-cased when it is nonempty and consists only of `A-Z` and
whitespace. -/
def capsLower (xs : List Nat) : List Nat :=
  if xs ≠ [] ∧ capsAll xs = true then xs.map lowerAZ else xs

-- "free"
def FREE : List Nat := [102, 114, 101, 101]
-- "urgent"
def URGENT : List Nat := [117, 114, 103, 101, 110, 116]
-- "act now"
def ACTNOW : List Nat := [97, 99, 116, 32, 110, 111, 119]

/-- `replace(/free|urgent|act now/gi, "")`: left-to-right scan removing
non-overlapping case-insensitive occurrences.  The three alternatives
start with distinct letters, so at most one can match at a position. -/
def removeDeny : List Nat → List Nat
  | c1 :: c2 :: c3 :: c4 :: c5 :: c6 :: c7 :: rest =>
    if low [c1, c2, c3, c4, c5, c6, c7] = ACTNOW then removeDeny rest
    else if low [c1, c2, c3, c4, c5, c6] = URGENT then removeDeny (c7 :: rest)
    else if low [c1, c2, c3, c4] = FREE then removeDeny (c5 :: c6 :: c7 :: rest)
    else c1 :: removeDeny (c2 :: c3 :: c4 :: c5 :: c6 :: c7 :: rest)
  | [c1, c2, c3, c4, c5, c6] =>
    if low [c1, c2, c3, c4, c5, c6] = URGENT then []
    else if low [c1, c2, c3, c4] = FREE then removeDeny [c5, c6]
    else c1 :: removeDeny [c2, c3, c4, c5, c6]
  | [c1, c2, c3, c4, c5] =>
    if low [c1, c2, c3, c4] = FREE then removeDeny [c5]
    else c1 :: removeDeny [c2, c3, c4, c5]
  | [c1, c2, c3, c4] =>
    if low [c1, c2, c3, c4] = FREE then []
    else c1 :: removeDeny [c2, c3, c4]
  | c1 :: rest => c1 :: removeDeny rest
  | [] => []

def safeSubject (s : List Nat) : List Nat :=
  trimWS (removeDeny (capsLower (collapsePunct (collapseWS s))))

/-! ## Body normalizer (`src/server.js` lines 48-68, `safeBody`) -/

/-- `replace(/\r\n/g, "\n")`. -/
def replRN : List Nat → List Nat
  | [] => []
  | [c] => [c]
  | c :: d :: rest =>
    if c = 13 ∧ d = 10 then 10 :: replRN rest
    else c :: replRN (d :: rest)

/-- `replace(/\n{3,}/g, "\n\n")`: a run of three or more newlines becomes
exactly two.  `k` counts the newlines just emitted (capped at 2). -/
def collNLaux : Nat → List Nat → List Nat
  | _, [] => []
  | k, c :: rest =>
    if c = 10 then
      if 2 ≤ k then collNLaux k rest else 10 :: collNLaux (k + 1) rest
    else c :: collNLaux 0 rest

def collNL (xs : List Nat) : List Nat := collNLaux 0 xs

/-- The trailing `\s*(?=\n|$)` of the soften regex, applied right after
the trigger word: the number of whitespace characters consumed by a
(backtracking, greedy) `\s*` such that the character after them is a
newline or the end of the string; `none` when no such cut exists. -/
def tailWSLen : List Nat → Option Nat
  | [] => some 0
  | c :: rest =>
    if isWS c then
      match tailWSLen rest with
      | some k => some (k + 1)
      | none => if c = 10 then some 0 else none
    else none

/-- Matching `\s*w\s*(?=\n|$)` at a position just after `(^|\n)`:
returns the number of characters consumed by the match (the leading
whitespace run, the word, and the trailing whitespace), or `none`.
The word starts with a letter, so the greedy `\s*` has no choice but the
whole whitespace run (which may span newlines). -/
def anchorMatch (w xs : List Nat) : Option Nat :=
  if low ((xs.dropWhile (fun c => isWS c)).take w.length) = w then
    match tailWSLen ((xs.dropWhile (fun c => isWS c)).drop w.length) with
    | some k => some ((xs.takeWhile (fun c => isWS c)).length + w.length + k)
    | none => none
  else none

/-- `t.replace(new RegExp("(^|\\n)\\s*word\\s*(?=\\n|$)", "gi"), "$1" + line)`:
`true` means the scanner sits just after an `(^|\n)` anchor (which has
already been emitted); `false` means it is looking for the next `\n`. -/
def replTrigGo (w repl : List Nat) : Bool → List Nat → List Nat
  | true, xs =>
    match anchorMatch w xs with
    | some k => repl ++ replTrigGo w repl false (xs.drop k)
    | none => replTrigGo w repl false xs
  | false, [] => []
  | false, c :: rest =>
    if c = 10 then c :: replTrigGo w repl true rest
    else c :: replTrigGo w repl false rest
termination_by b xs => 2 * xs.length + (if b then 1 else 0)
decreasing_by
  all_goals simp_wf
  all_goals omega

def replTrig (w repl t : List Nat) : List Nat := replTrigGo w repl true t

-- "report"
def W_REPORT : List Nat := [114, 101, 112, 111, 114, 116]
-- "the report details are shared below"
def S_REPORT : List Nat := [116, 104, 101, 32, 114, 101, 112, 111, 114, 116, 32, 100, 101, 116, 97, 105, 108, 115, 32, 97, 114, 101, 32, 115, 104, 97, 114, 101, 100, 32, 98, 101, 108, 111, 119]
-- "price"
def W_PRICE : List Nat := [112, 114, 105, 99, 101]
-- "the pricing details are included below"
def S_PRICE : List Nat := [116, 104, 101, 32, 112, 114, 105, 99, 105, 110, 103, 32, 100, 101, 116, 97, 105, 108, 115, 32, 97, 114, 101, 32, 105, 110, 99, 108, 117, 100, 101, 100, 32, 98, 101, 108, 111, 119]
-- "quote"
def W_QUOTE : List Nat := [113, 117, 111, 116, 101]
-- "the quoted details are mentioned below"
def S_QUOTE : List Nat := [116, 104, 101, 32, 113, 117, 111, 116, 101, 100, 32, 100, 101, 116, 97, 105, 108, 115, 32, 97, 114, 101, 32, 109, 101, 110, 116, 105, 111, 110, 101, 100, 32, 98, 101, 108, 111, 119]
-- "proposal"
def W_PROPOSAL : List Nat := [112, 114, 111, 112, 111, 115, 97, 108]
-- "the proposal details are outlined below"
def S_PROPOSAL : List Nat := [116, 104, 101, 32, 112, 114, 111, 112, 111, 115, 97, 108, 32, 100, 101, 116, 97, 105, 108, 115, 32, 97, 114, 101, 32, 111, 117, 116, 108, 105, 110, 101, 100, 32, 98, 101, 108, 111, 119]
-- "screenshot"
def W_SCREENSHOT : List Nat := [115, 99, 114, 101, 101, 110, 115, 104, 111, 116]
-- "a screenshot has been included for reference"
def S_SCREENSHOT : List Nat := [97, 32, 115, 99, 114, 101, 101, 110, 115, 104, 111, 116, 32, 104, 97, 115, 32, 98, 101, 101, 110, 32, 105, 110, 99, 108, 117, 100, 101, 100, 32, 102, 111, 114, 32, 114, 101, 102, 101, 114, 101, 110, 99, 101]

/-- The `soften` table (`src/server.js` lines 54-60), in source order. -/
def soften : List (List Nat × List Nat) :=
  [(W_REPORT, S_REPORT), (W_PRICE, S_PRICE), (W_QUOTE, S_QUOTE),
   (W_PROPOSAL, S_PROPOSAL), (W_SCREENSHOT, S_SCREENSHOT)]

def safeBody (t : List Nat) : List Nat :=
  soften.foldl (fun acc p => replTrig p.1 p.2 acc) (trimWS (collNL (replRN t)))

/-! ## Specification-side predicates used by the theorems -/

/-- No two adjacent characters satisfy `bad`. -/
def noAdj (bad : Nat → Nat → Bool) : List Nat → Bool
  | a :: b :: t => !bad a b && noAdj bad (b :: t)
  | _ => true

/-- Adjacent pair forbidden after `\s{2,}` collapsing. -/
def wsbad (a b : Nat) : Bool := isWS a && isWS b

/-- Adjacent pair forbidden after `([!?])\1+` collapsing. -/
def ppbad (a b : Nat) : Bool := decide (a = b ∧ (a = 33 ∨ a = 63))

/-- The string starts (case-insensitively) with the pattern `pat`. -/
def startsLow (pat xs : List Nat) : Bool := decide (low (xs.take pat.length) = pat)

/-- Some denylist alternative matches at the head of the string. -/
def denyHead (xs : List Nat) : Bool :=
  startsLow FREE xs || startsLow URGENT xs || startsLow ACTNOW xs

/-- Some denylist alternative occurs somewhere in the string. -/
def hasOcc : List Nat → Bool
  | [] => false
  | c :: rest => denyHead (c :: rest) || hasOcc rest

/-- The per-account quota invariant of the spec (§3). -/
def QuotaInv (st : Stats) : Prop := ∀ g, getCount st g ≤ HOURLY_LIMIT

/-! ## Concrete inputs used by examples, witnesses and counterexamples -/

-- "g@x"
def exG : List Nat := [103, 64, 120]
-- "a@x.com, b@x.com\nnotanemail\n c@x.com "
def exTo : List Nat := [97, 64, 120, 46, 99, 111, 109, 44, 32, 98, 64, 120, 46, 99, 111, 109, 10, 110, 111, 116, 97, 110, 101, 109, 97, 105, 108, 10, 32, 99, 64, 120, 46, 99, 111, 109, 32]
-- "a@x.com"
def exA : List Nat := [97, 64, 120, 46, 99, 111, 109]
-- "b@x.com"
def exB : List Nat := [98, 64, 120, 46, 99, 111, 109]
-- "c@x.com"
def exC : List Nat := [99, 64, 120, 46, 99, 111, 109]
-- "a free b"
def exFree : List Nat := [97, 32, 102, 114, 101, 101, 32, 98]
-- "a\n\nprice"
def exMulti : List Nat := [97, 10, 10, 112, 114, 105, 99, 101]
-- "the price is high"
def exEmbed : List Nat := [116, 104, 101, 32, 112, 114, 105, 99, 101, 32, 105, 115, 32, 104, 105, 103, 104]
-- "notanemail"
def exNE : List Nat := [110, 111, 116, 97, 110, 101, 109, 97, 105, 108]

/-- A well-formed request (senderName "s", gmail "g@x", apppass "p",
the example `to` string, subject "s", message "m"). -/
def rq : Req := ⟨[115], exG, [112], exTo, [115], [109]⟩

/-- Same but with an empty subject: the missing-fields branch fires. -/
def rqMissing : Req := ⟨[115], exG, [112], exTo, [], [109]⟩

/-- Same but with `to = "notanemail"`: zero parsed recipients. -/
def rqEmptyTo : Req := ⟨[115], exG, [112], exNE, [115], [109]⟩

/-! # Store lemmas -/

theorem getCount_ensure (st : Stats) (g g' : List Nat) :
    getCount (ensure st g) g' = getCount st g' := by
  unfold ensure
  by_cases h : lookupC st g = none
  · simp only [if_pos h, getCount, lookupC]
    by_cases hg : g = g'
    · subst hg; simp [h]
    · simp [hg]
  · simp [if_neg h]

theorem getCount_updateC (st : Stats) (g : List Nat) (n : Nat) (g' : List Nat) :
    getCount (updateC st g n) g' = if g' = g then n else getCount st g' := by
  induction st with
  | nil =>
    simp only [updateC, getCount, lookupC]
    by_cases hg : g = g'
    · subst hg; simp
    · rw [if_neg hg, if_neg (fun h => hg h.symm)]
  | cons p rest ih =>
    obtain ⟨k, v⟩ := p
    simp only [updateC]
    by_cases hk : k = g
    · subst hk
      simp only [getCount, lookupC]
      by_cases hg : k = g'
      · subst hg; simp
      · rw [if_neg hg, if_neg hg, if_neg (fun h => hg h.symm)]
    · simp only [if_neg hk, getCount, lookupC]
      by_cases hkg : k = g'
      · subst hkg
        rw [if_pos rfl, if_pos rfl, if_neg hk]
      · rw [if_neg hkg, if_neg hkg]
        have := ih
        simp only [getCount] at this
        exact this

/-! # Handler branch lemmas -/

theorem handle_missing (st : Stats) (r : Req) (v : Bool) (ok : Nat → Bool)
    (h : missingB r = true) :
    handle st r v ok = (st, ⟨false, some Msg.missingFields, none, 0⟩) := by
  simp [handle, h]

theorem handle_limitReached (st : Stats) (r : Req) (v : Bool) (ok : Nat → Bool)
    (hm : missingB r = false) (hc : HOURLY_LIMIT ≤ getCount st r.gmail) :
    handle st r v ok = (ensure st r.gmail,
      ⟨false, some Msg.hourlyLimitReached, none, getCount st r.gmail⟩) := by
  simp [handle, hm, getCount_ensure, hc]

theorem handle_limitFull (st : Stats) (r : Req) (v : Bool) (ok : Nat → Bool)
    (hm : missingB r = false) (hc : getCount st r.gmail < HOURLY_LIMIT)
    (hn : HOURLY_LIMIT - getCount st r.gmail < (parseRecipients r.toAddr).length) :
    handle st r v ok = (ensure st r.gmail,
      ⟨false, some Msg.limitFull, none, getCount st r.gmail⟩) := by
  simp [handle, hm, getCount_ensure, Nat.not_le.mpr hc, hn]

theorem handle_badCred (st : Stats) (r : Req) (ok : Nat → Bool)
    (hm : missingB r = false) (hc : getCount st r.gmail < HOURLY_LIMIT)
    (hn : (parseRecipients r.toAddr).length ≤ HOURLY_LIMIT - getCount st r.gmail) :
    handle st r false ok = (ensure st r.gmail,
      ⟨false, some Msg.wrongAppPassword, none, getCount st r.gmail⟩) := by
  simp [handle, hm, getCount_ensure, Nat.not_le.mpr hc, Nat.not_lt.mpr hn]

theorem handle_ok (st : Stats) (r : Req) (ok : Nat → Bool)
    (hm : missingB r = false) (hc : getCount st r.gmail < HOURLY_LIMIT)
    (hn : (parseRecipients r.toAddr).length ≤ HOURLY_LIMIT - getCount st r.gmail) :
    handle st r true ok =
      (updateC (ensure st r.gmail) r.gmail
        (getCount st r.gmail +
          (sendSafely ok (List.range (parseRecipients r.toAddr).length)).1),
       ⟨true, none,
        some ((sendSafely ok (List.range (parseRecipients r.toAddr).length)).1),
        getCount st r.gmail +
          (sendSafely ok (List.range (parseRecipients r.toAddr).length)).1⟩) := by
  simp [handle, hm, getCount_ensure, Nat.not_le.mpr hc, Nat.not_lt.mpr hn]

/-! # Batch dispatcher lemmas -/

theorem sendSafely_fst {α : Type} (ok : α → Bool) (l : List α) :
    (sendSafely ok l).1 = l.countP ok := by
  induction l using chunks3.induct with
  | case1 => rfl
  | case2 a => simp [sendSafely]
  | case3 a b => simp [sendSafely]
  | case4 a b c rest ih => simp [sendSafely, ih, List.countP_cons]; omega

theorem sendSafely_snd {α : Type} (ok : α → Bool) (l : List α) :
    (sendSafely ok l).2 = (chunks3 l).length := by
  induction l using chunks3.induct with
  | case1 => rfl
  | case2 a => rfl
  | case3 a b => rfl
  | case4 a b c rest ih => simp [sendSafely, chunks3, ih]; omega

theorem chunks3_flatten {α : Type} (l : List α) : (chunks3 l).flatten = l := by
  induction l using chunks3.induct with
  | case1 => rfl
  | case2 a => rfl
  | case3 a b => rfl
  | case4 a b c rest ih => simp [chunks3, ih]

theorem chunks3_mem_len {α : Type} (l : List α) :
    ∀ c ∈ chunks3 l, c ≠ [] ∧ c.length ≤ PARALLEL := by
  induction l using chunks3.induct with
  | case1 => intro c hc; simp [chunks3] at hc
  | case2 a => intro c hc; simp [chunks3] at hc; subst hc; simp [PARALLEL]
  | case3 a b => intro c hc; simp [chunks3] at hc; subst hc; simp [PARALLEL]
  | case4 a b c rest ih =>
    intro d hd
    simp only [chunks3, List.mem_cons] at hd
    rcases hd with rfl | hd
    · simp [PARALLEL]
    · exact ih d hd

theorem chunks3_ne_nil {α : Type} (l : List α) (h : l ≠ []) : chunks3 l ≠ [] := by
  cases l using chunks3.induct <;> simp [chunks3] at h ⊢

theorem chunks3_dropLast {α : Type} (l : List α) :
    ∀ c ∈ (chunks3 l).dropLast, c.length = PARALLEL := by
  induction l using chunks3.induct with
  | case1 => intro c hc; simp [chunks3] at hc
  | case2 a => intro c hc; simp [chunks3] at hc
  | case3 a b => intro c hc; simp [chunks3] at hc
  | case4 a b c rest ih =>
    intro d hd
    by_cases hr : rest = []
    · subst hr; simp [chunks3] at hd
    · rw [show chunks3 (a :: b :: c :: rest) = [a, b, c] :: chunks3 rest from rfl] at hd
      obtain ⟨x, xs, hx⟩ : ∃ x xs, chunks3 rest = x :: xs := by
        cases hcr : chunks3 rest with
        | nil => exact absurd hcr (chunks3_ne_nil rest hr)
        | cons x xs => exact ⟨x, xs, rfl⟩
      rw [hx, List.dropLast_cons₂, List.mem_cons] at hd
      rcases hd with rfl | hd
      · simp [PARALLEL]
      · exact ih d (by rw [hx]; exact hd)

/-! # Quota invariant lemmas -/

theorem quotaInv_ensure (st : Stats) (g : List Nat) (h : QuotaInv st) :
    QuotaInv (ensure st g) := by
  intro g'; rw [getCount_ensure]; exact h g'

theorem missingB_false_or_true (r : Req) : missingB r = false ∨ missingB r = true := by
  cases missingB r <;> simp

theorem quotaInv_step (st : Stats) (r : Req) (v : Bool) (ok : Nat → Bool)
    (h : QuotaInv st) : QuotaInv (handle st r v ok).1 := by
  rcases missingB_false_or_true r with hm | hm
  · by_cases hc : HOURLY_LIMIT ≤ getCount st r.gmail
    · rw [handle_limitReached st r v ok hm hc]; exact quotaInv_ensure st r.gmail h
    · have hc' : getCount st r.gmail < HOURLY_LIMIT := Nat.lt_of_not_le hc
      by_cases hn : HOURLY_LIMIT - getCount st r.gmail < (parseRecipients r.toAddr).length
      · rw [handle_limitFull st r v ok hm hc' hn]; exact quotaInv_ensure st r.gmail h
      · have hn' : (parseRecipients r.toAddr).length ≤ HOURLY_LIMIT - getCount st r.gmail :=
          Nat.le_of_not_lt hn
        cases v with
        | false => rw [handle_badCred st r ok hm hc' hn']; exact quotaInv_ensure st r.gmail h
        | true =>
          rw [handle_ok st r ok hm hc' hn']
          intro g'
          simp only [getCount_updateC]
          split
          · have hsent : (sendSafely ok (List.range (parseRecipients r.toAddr).length)).1
                ≤ (parseRecipients r.toAddr).length := by
              rw [sendSafely_fst]
              calc List.countP ok (List.range (parseRecipients r.toAddr).length)
                  ≤ (List.range (parseRecipients r.toAddr).length).length :=
                    List.countP_le_length ok
                _ = (parseRecipients r.toAddr).length := List.length_range _
            omega
          · rw [getCount_ensure]; exact h g'
  · rw [handle_missing st r v ok hm]; exact h

theorem quotaInv_runTrace (tr : List (Req × Bool × (Nat → Bool))) (st : Stats)
    (h : QuotaInv st) : QuotaInv (runTrace st tr) := by
  induction tr generalizing st with
  | nil => exact h
  | cons p rest ih =>
    obtain ⟨r, v, ok⟩ := p
    exact ih (handle st r v ok).1 (quotaInv_step st r v ok h)

theorem quotaInv_nil : QuotaInv [] := by
  intro g; simp [getCount, lookupC]

/-- In every branch whose response has `success = true`, the request was
admitted and the commit added the dispatched total. -/
theorem handle_success_facts (st : Stats) (r : Req) (v : Bool) (ok : Nat → Bool)
    (h : (handle st r v ok).2.success = true) :
    (parseRecipients r.toAddr).length ≤ HOURLY_LIMIT - getCount st r.gmail ∧
    (handle st r v ok).2.sent.getD 0 ≤ (parseRecipients r.toAddr).length ∧
    getCount (handle st r v ok).1 r.gmail =
      getCount st r.gmail + (handle st r v ok).2.sent.getD 0 := by
  rcases missingB_false_or_true r with hm | hm
  · by_cases hc : HOURLY_LIMIT ≤ getCount st r.gmail
    · rw [handle_limitReached st r v ok hm hc] at h; simp at h
    · have hc' : getCount st r.gmail < HOURLY_LIMIT := Nat.lt_of_not_le hc
      by_cases hn : HOURLY_LIMIT - getCount st r.gmail < (parseRecipients r.toAddr).length
      · rw [handle_limitFull st r v ok hm hc' hn] at h; simp at h
      · have hn' : (parseRecipients r.toAddr).length ≤ HOURLY_LIMIT - getCount st r.gmail :=
          Nat.le_of_not_lt hn
        cases v with
        | false => rw [handle_badCred st r ok hm hc' hn'] at h; simp at h
        | true =>
          rw [handle_ok st r ok hm hc' hn']
          refine ⟨hn', ?_, ?_⟩
          · simp only [Option.getD_some]
            rw [sendSafely_fst]
            calc List.countP ok (List.range (parseRecipients r.toAddr).length)
                ≤ (List.range (parseRecipients r.toAddr).length).length :=
                  List.countP_le_length ok
              _ = (parseRecipients r.toAddr).length := List.length_range _
          · simp [getCount_updateC]
  · rw [handle_missing st r v ok hm] at h; simp at h

/-! # Claim theorems -/

/-- C1: under sequential execution of `/send` requests every account's
quota count stays within `0 ≤ count ≤ HOURLY_LIMIT` (counts are naturals,
so only the upper bound is stated): a single handler step preserves the
invariant, any trace from the empty store satisfies it, and a successful
request was admitted only with `recipients ≤ HOURLY_LIMIT - count` while
the commit adds exactly the dispatched total, which is at most the
admitted recipient count. -/
theorem hourly_limit_invariant :
    (∀ (st : Stats) (r : Req) (v : Bool) (ok : Nat → Bool),
      QuotaInv st → QuotaInv (handle st r v ok).1) ∧
    (∀ tr : List (Req × Bool × (Nat → Bool)), QuotaInv (runTrace [] tr)) ∧
    (∀ (st : Stats) (r : Req) (v : Bool) (ok : Nat → Bool),
      (handle st r v ok).2.success = true →
      (parseRecipients r.toAddr).length ≤ HOURLY_LIMIT - getCount st r.gmail ∧
      (handle st r v ok).2.sent.getD 0 ≤ (parseRecipients r.toAddr).length ∧
      getCount (handle st r v ok).1 r.gmail =
        getCount st r.gmail + (handle st r v ok).2.sent.getD 0) :=
  ⟨quotaInv_step, fun tr => quotaInv_runTrace tr [] quotaInv_nil, handle_success_facts⟩

theorem hourly_limit_invariant_witness :
    QuotaInv (handle [(exG, 25)] rq true (fun _ => true)).1 :=
  hourly_limit_invariant.1 [(exG, 25)] rq true (fun _ => true)
    (fun g => by
      show getCount [(exG, 25)] g ≤ HOURLY_LIMIT
      by_cases h : exG = g
      · simp [getCount, lookupC, h, HOURLY_LIMIT]
      · simp [getCount, lookupC, h])

/-- C2: with current count `c`, the quota check rejects the whole request,
with `success = false`, no `sent` field, the account's current count in
the response, and the store's counts unchanged: with the
hourly-limit-reached message when `c ≥ HOURLY_LIMIT`, and with the
limit-full message when `c < HOURLY_LIMIT` but the parsed recipient count
exceeds `HOURLY_LIMIT - c`. -/
theorem quota_check_rejects :
    (∀ (st : Stats) (r : Req) (v : Bool) (ok : Nat → Bool),
      missingB r = false → HOURLY_LIMIT ≤ getCount st r.gmail →
      handle st r v ok = (ensure st r.gmail,
        ⟨false, some Msg.hourlyLimitReached, none, getCount st r.gmail⟩)) ∧
    (∀ (st : Stats) (r : Req) (v : Bool) (ok : Nat → Bool),
      missingB r = false → getCount st r.gmail < HOURLY_LIMIT →
      HOURLY_LIMIT - getCount st r.gmail < (parseRecipients r.toAddr).length →
      handle st r v ok = (ensure st r.gmail,
        ⟨false, some Msg.limitFull, none, getCount st r.gmail⟩)) ∧
    (∀ (st : Stats) (g g' : List Nat), getCount (ensure st g) g' = getCount st g') :=
  ⟨handle_limitReached, handle_limitFull, getCount_ensure⟩

theorem quota_check_rejects_witness :
    handle [(exG, 26)] rq true (fun _ => true) = (ensure [(exG, 26)] rq.gmail,
      ⟨false, some Msg.limitFull, none, getCount [(exG, 26)] rq.gmail⟩) :=
  quota_check_rejects.2.1 [(exG, 26)] rq true (fun _ => true)
    (by decide) (by decide) (by decide)

/-- C4 (amended): the missing-fields branch always answers `count = 0`,
even when the account has a record with a positive count; every other
branch (the two quota rejections, the credential rejection, and success)
answers with the account's count in the store at response time. -/
theorem response_count_field :
    (∀ (st : Stats) (r : Req) (v : Bool) (ok : Nat → Bool),
      missingB r = true → (handle st r v ok).2.count = 0) ∧
    (∀ (st : Stats) (r : Req) (v : Bool) (ok : Nat → Bool),
      missingB r = false →
      (handle st r v ok).2.count = getCount (handle st r v ok).1 r.gmail) := by
  constructor
  · intro st r v ok hm
    rw [handle_missing st r v ok hm]
  · intro st r v ok hm
    by_cases hc : HOURLY_LIMIT ≤ getCount st r.gmail
    · rw [handle_limitReached st r v ok hm hc]; simp [getCount_ensure]
    · have hc' : getCount st r.gmail < HOURLY_LIMIT := Nat.lt_of_not_le hc
      by_cases hn : HOURLY_LIMIT - getCount st r.gmail < (parseRecipients r.toAddr).length
      · rw [handle_limitFull st r v ok hm hc' hn]; simp [getCount_ensure]
      · have hn' : (parseRecipients r.toAddr).length ≤ HOURLY_LIMIT - getCount st r.gmail :=
          Nat.le_of_not_lt hn
        cases v with
        | false => rw [handle_badCred st r ok hm hc' hn']; simp [getCount_ensure]
        | true => rw [handle_ok st r ok hm hc' hn']; simp [getCount_updateC]

theorem response_count_field_witness :
    (handle [(exG, 5)] rq true (fun _ => true)).2.count =
      getCount (handle [(exG, 5)] rq true (fun _ => true)).1 rq.gmail :=
  response_count_field.2 [(exG, 5)] rq true (fun _ => true) (by decide)

/-- C4 counterexample: with the account `"g@x"` at count 5 and a request
whose subject is empty, the missing-fields branch answers `count = 0`,
not the account's current count 5 — refuting the claim that every failure
branch before dispatching reports the account's current count. -/
theorem response_count_cex :
    (handle [(exG, 5)] rqMissing true (fun _ => true)).2.success = false ∧
    (handle [(exG, 5)] rqMissing true (fun _ => true)).2.msg = some Msg.missingFields ∧
    getCount [(exG, 5)] rqMissing.gmail = 5 ∧
    (handle [(exG, 5)] rqMissing true (fun _ => true)).2.count ≠
      getCount [(exG, 5)] rqMissing.gmail := by
  refine ⟨rfl, rfl, by decide, by decide⟩

/-- C5: the parsed recipient list is exactly the source's
split-on-comma-or-newline, trim, keep-entries-containing-"@" pipeline (a
filter of the trimmed tokens, hence order- and duplicate-preserving), and
on `"a@x.com, b@x.com\nnotanemail\n c@x.com "` it yields exactly
`["a@x.com", "b@x.com", "c@x.com"]`. -/
theorem parseRecipients_spec :
    parseRecipients exTo = [exA, exB, exC] ∧
    (∀ t : List Nat,
      parseRecipients t = ((splitRecip t).map trimWS).filter (fun r => r.contains 64)) ∧
    (∀ t : List Nat, (parseRecipients t).Sublist ((splitRecip t).map trimWS)) ∧
    (∀ (t r : List Nat), r ∈ parseRecipients t → r.contains 64 = true) :=
  ⟨by decide, fun t => rfl, fun t => List.filter_sublist _,
   fun t r h => by
     have h' : r ∈ List.filter (fun x => x.contains 64) ((splitRecip t).map trimWS) := h
     exact (List.mem_filter.mp h').2⟩

theorem parseRecipients_spec_witness : exA.contains 64 = true :=
  parseRecipients_spec.2.2.2 exTo exA (by decide)

/-- C6: the dispatcher partitions the mail list into consecutive
order-preserving groups of `PARALLEL = 3` (their concatenation restores
the list, every group is nonempty with size at most `PARALLEL`, and every
group except possibly the last has size exactly `PARALLEL`), waits the
fixed `DELAY_MS = 120` delay once per group — after every group including
the last — and 7 messages yield groups of sizes 3, 3, 1. -/
theorem sendSafely_batching :
    PARALLEL = 3 ∧ DELAY_MS = 120 ∧
    (∀ l : List Nat, (chunks3 l).flatten = l) ∧
    (∀ l : List Nat, ∀ c ∈ chunks3 l, c ≠ [] ∧ c.length ≤ PARALLEL) ∧
    (∀ l : List Nat, ∀ c ∈ (chunks3 l).dropLast, c.length = PARALLEL) ∧
    (∀ (ok : Nat → Bool) (l : List Nat), (sendSafely ok l).2 = (chunks3 l).length) ∧
    (chunks3 (List.range 7)).map List.length = [3, 3, 1] :=
  ⟨rfl, rfl, chunks3_flatten, chunks3_mem_len, chunks3_dropLast, sendSafely_snd,
   by decide⟩

theorem sendSafely_batching_witness :
    ([0, 1, 2] : List Nat) ≠ [] ∧ ([0, 1, 2] : List Nat).length ≤ PARALLEL :=
  sendSafely_batching.2.2.2.1 (List.range 7) [0, 1, 2] (by decide)

/-- C7: the dispatcher returns the number of per-message successes — a
total between 0 and the list length — for every success/failure pattern
(the `ok` oracle), and an admitted, credential-verified request always
answers `success = true` with `sent` equal to that total, the account's
count incremented by it, even when the total is zero. -/
theorem sendSafely_total_successes :
    (∀ (ok : Nat → Bool) (l : List Nat),
      (sendSafely ok l).1 = l.countP ok ∧ (sendSafely ok l).1 ≤ l.length) ∧
    (∀ (st : Stats) (r : Req) (ok : Nat → Bool),
      missingB r = false → getCount st r.gmail < HOURLY_LIMIT →
      (parseRecipients r.toAddr).length ≤ HOURLY_LIMIT - getCount st r.gmail →
      (handle st r true ok).2 =
        ⟨true, none,
         some ((sendSafely ok (List.range (parseRecipients r.toAddr).length)).1),
         getCount st r.gmail +
           (sendSafely ok (List.range (parseRecipients r.toAddr).length)).1⟩) := by
  constructor
  · intro ok l
    refine ⟨sendSafely_fst ok l, ?_⟩
    rw [sendSafely_fst]; exact List.countP_le_length ok
  · intro st r ok hm hc hn
    rw [handle_ok st r ok hm hc hn]

theorem sendSafely_total_successes_witness :
    (handle [] rq true (fun _ => false)).2 =
      ⟨true, none,
       some ((sendSafely (fun _ => false) (List.range (parseRecipients rq.toAddr).length)).1),
       getCount [] rq.gmail +
         (sendSafely (fun _ => false) (List.range (parseRecipients rq.toAddr).length)).1⟩ :=
  sendSafely_total_successes.2 [] rq (fun _ => false) (by decide) (by decide) (by decide)

/-- C8: when a request passes validation and the quota check but the
one-time credential verification fails, no dispatch happens: the response
is `success = false` with the wrong-app-password message, no `sent`
field, the account's current count, and every account's count is
unchanged. -/
theorem credential_failure_no_send (st : Stats) (r : Req) (ok : Nat → Bool)
    (hm : missingB r = false) (hc : getCount st r.gmail < HOURLY_LIMIT)
    (hn : (parseRecipients r.toAddr).length ≤ HOURLY_LIMIT - getCount st r.gmail) :
    handle st r false ok = (ensure st r.gmail,
      ⟨false, some Msg.wrongAppPassword, none, getCount st r.gmail⟩) ∧
    ∀ g, getCount (handle st r false ok).1 g = getCount st g := by
  have h := handle_badCred st r ok hm hc hn
  exact ⟨h, fun g => by rw [h]; exact getCount_ensure st r.gmail g⟩

theorem credential_failure_no_send_witness :
    handle [(exG, 25)] rq false (fun _ => true) = (ensure [(exG, 25)] rq.gmail,
      ⟨false, some Msg.wrongAppPassword, none, getCount [(exG, 25)] rq.gmail⟩) :=
  (credential_failure_no_send [(exG, 25)] rq (fun _ => true)
    (by decide) (by decide) (by decide)).1

/-- C10: a request whose fields are all nonempty but whose `to` string
parses to zero recipients, on an account below the limit, passes the
quota check; with the credential verified it answers `success = true`
with `sent = 0` and leaves every account's count unchanged. -/
theorem zero_recipients_success (st : Stats) (r : Req) (ok : Nat → Bool)
    (hm : missingB r = false) (hre : parseRecipients r.toAddr = [])
    (hc : getCount st r.gmail < HOURLY_LIMIT) :
    (handle st r true ok).2 = ⟨true, none, some 0, getCount st r.gmail⟩ ∧
    ∀ g, getCount (handle st r true ok).1 g = getCount st g := by
  have hn : (parseRecipients r.toAddr).length ≤ HOURLY_LIMIT - getCount st r.gmail := by
    rw [hre]; exact Nat.zero_le _
  have h := handle_ok st r ok hm hc hn
  rw [hre] at h
  constructor
  · rw [h]; rfl
  · intro g
    rw [h]
    show getCount (updateC (ensure st r.gmail) r.gmail (getCount st r.gmail +
      (sendSafely ok (List.range 0)).1)) g = getCount st g
    rw [getCount_updateC]
    split
    · rename_i hg; subst hg; rfl
    · exact getCount_ensure st r.gmail g

theorem zero_recipients_success_witness :
    (handle [(exG, 25)] rqEmptyTo true (fun _ => true)).2 =
      ⟨true, none, some 0, getCount [(exG, 25)] rqEmptyTo.gmail⟩ :=
  (zero_recipients_success [(exG, 25)] rqEmptyTo (fun _ => true)
    (by decide) (by decide) (by decide)).1

/-! # Character-class lemmas -/

theorem isWS_lowerAZ (n : Nat) : isWS (lowerAZ n) = isWS n := by
  unfold lowerAZ
  split
  · rename_i h
    rw [isUpperAZ, decide_eq_true_eq] at h
    unfold isWS
    rw [decide_eq_decide]
    omega
  · rfl

theorem ppbad_lowerAZ (a b : Nat) : ppbad (lowerAZ a) (lowerAZ b) = ppbad a b := by
  unfold ppbad lowerAZ
  rw [decide_eq_decide]
  split <;> split <;> rename_i h1 h2 <;>
    simp only [isUpperAZ, decide_eq_true_eq] at h1 h2 <;> omega

theorem lowerAZ_not_upper (c : Nat) (h : (isUpperAZ c || isWS c) = true) :
    isUpperAZ (lowerAZ c) = false := by
  unfold lowerAZ
  rcases Bool.or_eq_true_iff.mp h with hu | hw
  · rw [if_pos hu]
    rw [isUpperAZ, decide_eq_true_eq] at hu
    rw [isUpperAZ, decide_eq_false_iff_not]
    omega
  · have hnu : isUpperAZ c = false := by
      rw [isWS, decide_eq_true_eq] at hw
      rw [isUpperAZ, decide_eq_false_iff_not]
      omega
    rw [if_neg (by simp [hnu])]
    exact hnu

theorem isWS_32 : isWS 32 = true := rfl

theorem punct_not_ws (c : Nat) (h : c = 33 ∨ c = 63) : isWS c = false := by
  rcases h with rfl | rfl <;> rfl

/-! # Generic adjacent-pair lemmas -/

theorem noAdj_tail (bad : Nat → Nat → Bool) (a : Nat) (l : List Nat)
    (h : noAdj bad (a :: l) = true) : noAdj bad l = true := by
  cases l with
  | nil => rfl
  | cons b t => exact (Bool.and_eq_true_iff.mp h).2

theorem noAdj_cons_of (bad : Nat → Nat → Bool) (a : Nat) (l : List Nat)
    (h : noAdj bad l = true) (hh : ∀ b t, l = b :: t → bad a b = false) :
    noAdj bad (a :: l) = true := by
  cases l with
  | nil => rfl
  | cons b t =>
    show (!bad a b && noAdj bad (b :: t)) = true
    rw [hh b t rfl, h]
    rfl

theorem noAdj_pair (bad : Nat → Nat → Bool) (a b : Nat) (t : List Nat)
    (h : noAdj bad (a :: b :: t) = true) : bad a b = false := by
  have := (Bool.and_eq_true_iff.mp h).1
  cases hab : bad a b
  · rfl
  · rw [hab] at this; exact absurd this (by decide)

theorem noAdj_dropWhile (bad : Nat → Nat → Bool) (p : Nat → Bool) (l : List Nat)
    (h : noAdj bad l = true) : noAdj bad (l.dropWhile p) = true := by
  induction l with
  | nil => rfl
  | cons a rest ih =>
    rw [List.dropWhile_cons]
    split
    · exact ih (noAdj_tail bad a rest h)
    · exact h

theorem dropTrail_head (c : Nat) (rest : List Nat) :
    dropTrail (c :: rest) = [] ∨ ∃ t, dropTrail (c :: rest) = c :: t := by
  cases hdt : dropTrail rest with
  | nil =>
    have hd2 : dropTrail (c :: rest) = if isWS c then [] else [c] := by
      show (match dropTrail rest with
        | [] => if isWS c then [] else [c]
        | d :: t => c :: d :: t) = _
      rw [hdt]
    by_cases h : isWS c = true
    · left; rw [hd2, if_pos h]
    · right; exact ⟨[], by rw [hd2, if_neg h]⟩
  | cons d t =>
    have hd2 : dropTrail (c :: rest) = c :: d :: t := by
      show (match dropTrail rest with
        | [] => if isWS c then [] else [c]
        | d :: t => c :: d :: t) = _
      rw [hdt]
    right; exact ⟨d :: t, hd2⟩

theorem noAdj_dropTrail (bad : Nat → Nat → Bool) (l : List Nat)
    (h : noAdj bad l = true) : noAdj bad (dropTrail l) = true := by
  induction l with
  | nil => rfl
  | cons a rest ih =>
    cases hdt : dropTrail rest with
    | nil =>
      have hd2 : dropTrail (a :: rest) = if isWS a then [] else [a] := by
        show (match dropTrail rest with
          | [] => if isWS a then [] else [a]
          | d :: t => a :: d :: t) = _
        rw [hdt]
      rw [hd2]
      split <;> rfl
    | cons d t =>
      have hd2 : dropTrail (a :: rest) = a :: d :: t := by
        show (match dropTrail rest with
          | [] => if isWS a then [] else [a]
          | d :: t => a :: d :: t) = _
        rw [hdt]
      rw [hd2]
      have hrest : noAdj bad (dropTrail rest) = true := ih (noAdj_tail bad a rest h)
      rw [hdt] at hrest
      refine noAdj_cons_of bad a (d :: t) hrest ?_
      intro b t' hb
      injection hb with h1 _
      rw [← h1]
      cases rest with
      | nil => exact absurd hdt (by simp [dropTrail])
      | cons x rest' =>
        rcases dropTrail_head x rest' with h0 | ⟨t'', h0⟩
        · rw [h0] at hdt; exact absurd hdt (by simp)
        · rw [h0] at hdt
          injection hdt with hx _
          rw [← hx]
          exact noAdj_pair bad a x rest' h

theorem noAdj_map (bad : Nat → Nat → Bool) (f : Nat → Nat)
    (hf : ∀ a b, bad (f a) (f b) = bad a b) (l : List Nat)
    (h : noAdj bad l = true) : noAdj bad (l.map f) = true := by
  induction l with
  | nil => rfl
  | cons a rest ih =>
    cases rest with
    | nil => rfl
    | cons b t =>
      show (!bad (f a) (f b) && noAdj bad (f b :: t.map f)) = true
      rw [hf a b, noAdj_pair bad a b t h]
      have := ih (noAdj_tail bad a (b :: t) h)
      rw [show (b :: t).map f = f b :: t.map f from rfl] at this
      rw [this]
      rfl

/-! # Whitespace-collapse lemmas -/

theorem collWSaux_cons_not_ws (c : Nat) (rest : List Nat) (h : isWS c = false) :
    collWSaux false (c :: rest) = c :: collWSaux false rest := by
  cases rest with
  | nil => rfl
  | cons d t => simp [collWSaux, h]

theorem collWSaux_true_eq (xs : List Nat) :
    collWSaux true xs = collWSaux false (xs.dropWhile (fun c => isWS c)) := by
  induction xs with
  | nil => rfl
  | cons c rest ih =>
    cases h : isWS c with
    | true =>
      rw [show collWSaux true (c :: rest) = collWSaux true rest from by simp [collWSaux, h],
        List.dropWhile_cons, if_pos h]
      exact ih
    | false =>
      rw [show collWSaux true (c :: rest) = c :: collWSaux false rest from by
          simp [collWSaux, h],
        List.dropWhile_cons, if_neg (by simp [h])]
      exact (collWSaux_cons_not_ws c rest h).symm

theorem collWSaux_false_head (c : Nat) (rest : List Nat) :
    ∃ e t, collWSaux false (c :: rest) = e :: t ∧ isWS e = isWS c := by
  cases rest with
  | nil => exact ⟨c, [], rfl, rfl⟩
  | cons d t0 =>
    cases hc : isWS c with
    | true =>
      cases hd : isWS d with
      | true =>
        exact ⟨32, collWSaux true (d :: t0), by simp [collWSaux, hc, hd], rfl⟩
      | false => exact ⟨c, collWSaux false (d :: t0), by simp [collWSaux, hc, hd], hc⟩
    | false => exact ⟨c, collWSaux false (d :: t0), by simp [collWSaux, hc], hc⟩

theorem collWSaux_true_head (xs : List Nat) :
    collWSaux true xs = [] ∨ ∃ e t, collWSaux true xs = e :: t ∧ isWS e = false := by
  induction xs with
  | nil => left; rfl
  | cons c rest ih =>
    cases h : isWS c with
    | true =>
      rw [show collWSaux true (c :: rest) = collWSaux true rest from by simp [collWSaux, h]]
      exact ih
    | false =>
      right
      exact ⟨c, collWSaux false rest, by simp [collWSaux, h], h⟩

theorem noAdj_wsbad_collWS (b : Bool) (xs : List Nat) :
    noAdj wsbad (collWSaux b xs) = true := by
  induction b, xs using collWSaux.induct with
  | case1 b => cases b <;> rfl
  | case2 c rest hc ih =>
    rw [show collWSaux true (c :: rest) = collWSaux true rest from by simp [collWSaux, hc]]
    exact ih
  | case3 c rest hc ih =>
    rw [show collWSaux true (c :: rest) = c :: collWSaux false rest from by
      simp [collWSaux, hc]]
    refine noAdj_cons_of wsbad c _ ih ?_
    intro e t' _
    simp [wsbad, Bool.eq_false_iff.mpr hc]
  | case4 c => rfl
  | case5 c d rest hc hd ih =>
    rw [show collWSaux false (c :: d :: rest) = 32 :: collWSaux true (d :: rest) from by
      simp [collWSaux, hc, hd]]
    refine noAdj_cons_of wsbad 32 _ ih ?_
    intro e t' het
    rcases collWSaux_true_head (d :: rest) with h0 | ⟨e', t'', h0, he'⟩
    · rw [h0] at het; exact absurd het (by simp)
    · rw [h0] at het
      injection het with h1 _
      rw [← h1]
      simp [wsbad, he']
  | case6 c d rest hc hd ih =>
    rw [show collWSaux false (c :: d :: rest) = c :: collWSaux false (d :: rest) from by
      simp [collWSaux, hc, hd]]
    refine noAdj_cons_of wsbad c _ ih ?_
    intro e t' het
    obtain ⟨e', t'', h0, he'⟩ := collWSaux_false_head d rest
    rw [h0] at het
    injection het with h1 _
    rw [← h1]
    rw [Bool.eq_false_iff.mpr hd] at he'
    simp [wsbad, he']
  | case7 c d rest hc ih =>
    rw [show collWSaux false (c :: d :: rest) = c :: collWSaux false (d :: rest) from by
      simp [collWSaux, hc]]
    refine noAdj_cons_of wsbad c _ ih ?_
    intro e t' _
    simp [wsbad, Bool.eq_false_iff.mpr hc]

theorem collWS_fix (xs : List Nat) (h : noAdj wsbad xs = true) :
    collWSaux false xs = xs := by
  induction xs with
  | nil => rfl
  | cons c rest ih =>
    cases rest with
    | nil => rfl
    | cons d t =>
      cases hc : isWS c with
      | false => rw [collWSaux_cons_not_ws c (d :: t) hc, ih (noAdj_tail _ _ _ h)]
      | true =>
        have hd : isWS d = false := by
          have hp := noAdj_pair wsbad c d t h
          simp [wsbad, hc] at hp
          exact hp
        rw [show collWSaux false (c :: d :: t) = c :: collWSaux false (d :: t) from by
          simp [collWSaux, hc, hd]]
        rw [ih (noAdj_tail _ _ _ h)]

/-! # Punctuation-collapse lemmas -/

theorem collPunctAux_step (prev : Option Nat) (c : Nat) (rest : List Nat)
    (h : ¬prev = some c) :
    collPunctAux prev (c :: rest) =
      if c = 33 ∨ c = 63 then c :: collPunctAux (some c) rest
      else c :: collPunctAux none rest := by
  simp only [collPunctAux]
  rw [if_neg h]

theorem collPunctAux_some_eq (p : Nat) (xs : List Nat) :
    collPunctAux (some p) xs =
      collPunctAux none (xs.dropWhile (fun x => decide (x = p))) := by
  induction xs with
  | nil => rfl
  | cons c rest ih =>
    by_cases hc : c = p
    · subst hc
      rw [show collPunctAux (some c) (c :: rest) = collPunctAux (some c) rest from by
        simp [collPunctAux]]
      rw [List.dropWhile_cons, if_pos (by simp)]
      exact ih
    · rw [List.dropWhile_cons, if_neg (by simp [hc])]
      rw [collPunctAux_step (some p) c rest
          (fun hh => hc (Option.some.inj hh).symm),
        collPunctAux_step none c rest (by simp)]

theorem collPunctAux_none_head (c : Nat) (rest : List Nat) :
    ∃ t, collPunctAux none (c :: rest) = c :: t := by
  by_cases h : c = 33 ∨ c = 63
  · exact ⟨collPunctAux (some c) rest, by simp [collPunctAux, h]⟩
  · exact ⟨collPunctAux none rest, by simp [collPunctAux, h]⟩

theorem dropWhile_head_pred (p : Nat → Bool) (l : List Nat) (e : Nat) (t : List Nat)
    (h : l.dropWhile p = e :: t) : p e = false := by
  induction l with
  | nil => exact absurd h (by simp)
  | cons a rest ih =>
    rw [List.dropWhile_cons] at h
    split at h
    · exact ih h
    · rename_i hpa
      injection h with h1 _
      rw [← h1]
      exact Bool.eq_false_iff.mpr hpa

theorem noAdj_ppbad_collPunct : ∀ (n : Nat) (xs : List Nat), xs.length ≤ n →
    noAdj ppbad (collPunctAux none xs) = true := by
  intro n
  induction n with
  | zero =>
    intro xs h
    rw [List.length_eq_zero.mp (Nat.le_zero.mp h)]
    rfl
  | succ n ih =>
    intro xs hlen
    cases xs with
    | nil => rfl
    | cons c rest =>
      by_cases hp : c = 33 ∨ c = 63
      · rw [collPunctAux_step none c rest (by simp), if_pos hp, collPunctAux_some_eq]
        have hsub := List.dropWhile_sublist (l := rest) (fun x => decide (x = c))
        have hwlen : (rest.dropWhile (fun x => decide (x = c))).length ≤ n := by
          have := hsub.length_le
          simp at hlen
          omega
        refine noAdj_cons_of ppbad c _ (ih _ hwlen) ?_
        intro e t' het
        cases hw : rest.dropWhile (fun x => decide (x = c)) with
        | nil => rw [hw] at het; exact absurd het (by simp [collPunctAux])
        | cons e' t'' =>
          obtain ⟨t3, h3⟩ := collPunctAux_none_head e' t''
          rw [hw, h3] at het
          injection het with h1 _
          have hne : decide (e' = c) = false := dropWhile_head_pred _ rest e' t'' hw
          rw [← h1]
          rw [decide_eq_false_iff_not] at hne
          simp [ppbad]
          intro hce
          exact absurd hce.symm hne
      · rw [collPunctAux_step none c rest (by simp), if_neg hp]
        have hrlen : rest.length ≤ n := by simp at hlen; omega
        refine noAdj_cons_of ppbad c _ (ih _ hrlen) ?_
        intro e t' _
        simp [ppbad]
        intro _
        exact not_or.mp hp

theorem collPunct_preserves_wsbad : ∀ (n : Nat) (xs : List Nat), xs.length ≤ n →
    noAdj wsbad xs = true → noAdj wsbad (collPunctAux none xs) = true := by
  intro n
  induction n with
  | zero =>
    intro xs h _
    rw [List.length_eq_zero.mp (Nat.le_zero.mp h)]
    rfl
  | succ n ih =>
    intro xs hlen hadj
    cases xs with
    | nil => rfl
    | cons c rest =>
      by_cases hp : c = 33 ∨ c = 63
      · rw [collPunctAux_step none c rest (by simp), if_pos hp, collPunctAux_some_eq]
        have hsub := List.dropWhile_sublist (l := rest) (fun x => decide (x = c))
        have hwlen : (rest.dropWhile (fun x => decide (x = c))).length ≤ n := by
          have := hsub.length_le
          simp at hlen
          omega
        have hwadj : noAdj wsbad (rest.dropWhile (fun x => decide (x = c))) = true :=
          noAdj_dropWhile wsbad _ rest (noAdj_tail wsbad c rest hadj)
        refine noAdj_cons_of wsbad c _ (ih _ hwlen hwadj) ?_
        intro e t' _
        simp [wsbad, punct_not_ws c hp]
      · rw [collPunctAux_step none c rest (by simp), if_neg hp]
        have hrlen : rest.length ≤ n := by simp at hlen; omega
        refine noAdj_cons_of wsbad c _ (ih _ hrlen (noAdj_tail wsbad c rest hadj)) ?_
        intro e t' het
        cases rest with
        | nil => exact absurd het (by simp [collPunctAux])
        | cons d t0 =>
          obtain ⟨t3, h3⟩ := collPunctAux_none_head d t0
          rw [h3] at het
          injection het with h1 _
          rw [← h1]
          exact noAdj_pair wsbad c d t0 hadj

theorem collPunct_fix (xs : List Nat) (h : noAdj ppbad xs = true) :
    collPunctAux none xs = xs := by
  induction xs with
  | nil => rfl
  | cons c rest ih =>
    by_cases hp : c = 33 ∨ c = 63
    · rw [collPunctAux_step none c rest (by simp), if_pos hp]
      cases rest with
      | nil => rfl
      | cons d t =>
        have hcd : ¬c = d := by
          have hpp := noAdj_pair ppbad c d t h
          simp [ppbad] at hpp
          intro hcdeq
          exact absurd hp (not_or.mpr (hpp hcdeq))
        rw [collPunctAux_some_eq, List.dropWhile_cons,
          if_neg (by simp; exact fun hh => hcd hh.symm)]
        rw [ih (noAdj_tail _ _ _ h)]
    · rw [collPunctAux_step none c rest (by simp), if_neg hp]
      rw [ih (noAdj_tail _ _ _ h)]

/-! # All-caps lower-casing lemmas -/

theorem capsLower_cases (xs : List Nat) :
    capsLower xs = xs ∨ capsLower xs = xs.map lowerAZ := by
  unfold capsLower
  split
  · right; rfl
  · left; rfl

theorem noAdj_wsbad_capsLower (xs : List Nat) (h : noAdj wsbad xs = true) :
    noAdj wsbad (capsLower xs) = true := by
  rcases capsLower_cases xs with he | he <;> rw [he]
  · exact h
  · exact noAdj_map wsbad lowerAZ (fun a b => by simp [wsbad, isWS_lowerAZ]) xs h

theorem noAdj_ppbad_capsLower (xs : List Nat) (h : noAdj ppbad xs = true) :
    noAdj ppbad (capsLower xs) = true := by
  rcases capsLower_cases xs with he | he <;> rw [he]
  · exact h
  · exact noAdj_map ppbad lowerAZ ppbad_lowerAZ xs h

/-! # Trim lemmas -/

theorem dropTrail_sublist (l : List Nat) : (dropTrail l).Sublist l := by
  induction l with
  | nil => exact List.Sublist.refl []
  | cons c rest ih =>
    cases hdt : dropTrail rest with
    | nil =>
      have hd2 : dropTrail (c :: rest) = if isWS c then [] else [c] := by
        show (match dropTrail rest with
          | [] => if isWS c then [] else [c]
          | d :: t => c :: d :: t) = _
        rw [hdt]
      rw [hd2]
      split
      · exact List.nil_sublist _
      · exact (List.nil_sublist rest).cons₂ c
    | cons d t =>
      have hd2 : dropTrail (c :: rest) = c :: d :: t := by
        show (match dropTrail rest with
          | [] => if isWS c then [] else [c]
          | d :: t => c :: d :: t) = _
        rw [hdt]
      rw [hd2]
      rw [hdt] at ih
      exact ih.cons₂ c

theorem dropTrail_exists_append (l : List Nat) : ∃ s, dropTrail l ++ s = l := by
  induction l with
  | nil => exact ⟨[], rfl⟩
  | cons c rest ih =>
    cases hdt : dropTrail rest with
    | nil =>
      have hd2 : dropTrail (c :: rest) = if isWS c then [] else [c] := by
        show (match dropTrail rest with
          | [] => if isWS c then [] else [c]
          | d :: t => c :: d :: t) = _
        rw [hdt]
      rw [hd2]
      split
      · exact ⟨c :: rest, rfl⟩
      · exact ⟨rest, rfl⟩
    | cons d t =>
      have hd2 : dropTrail (c :: rest) = c :: d :: t := by
        show (match dropTrail rest with
          | [] => if isWS c then [] else [c]
          | d :: t => c :: d :: t) = _
        rw [hdt]
      rw [hd2]
      obtain ⟨s, hs⟩ := ih
      rw [hdt] at hs
      exact ⟨s, by rw [List.cons_append, hs]⟩

theorem dropTrail_idem (l : List Nat) : dropTrail (dropTrail l) = dropTrail l := by
  induction l with
  | nil => rfl
  | cons c rest ih =>
    cases hdt : dropTrail rest with
    | nil =>
      have hd2 : dropTrail (c :: rest) = if isWS c then [] else [c] := by
        show (match dropTrail rest with
          | [] => if isWS c then [] else [c]
          | d :: t => c :: d :: t) = _
        rw [hdt]
      rw [hd2]
      split
      · rfl
      · rename_i hws
        show (match dropTrail [] with
          | [] => if isWS c then [] else [c]
          | d :: t => c :: d :: t) = _
        rw [show dropTrail ([] : List Nat) = [] from rfl, if_neg hws]
    | cons d t =>
      have hd2 : dropTrail (c :: rest) = c :: d :: t := by
        show (match dropTrail rest with
          | [] => if isWS c then [] else [c]
          | d :: t => c :: d :: t) = _
        rw [hdt]
      rw [hd2]
      rw [hdt] at ih
      show (match dropTrail (d :: t) with
        | [] => if isWS c then [] else [c]
        | d :: t => c :: d :: t) = _
      rw [ih]

theorem dropWhile_id_of_head (p : Nat → Bool) (l : List Nat)
    (h : ∀ e t, l = e :: t → p e = false) : l.dropWhile p = l := by
  cases l with
  | nil => rfl
  | cons e t => rw [List.dropWhile_cons, if_neg (by rw [h e t rfl]; simp)]

theorem trimWS_head (xs : List Nat) :
    trimWS xs = [] ∨ ∃ e t, trimWS xs = e :: t ∧ isWS e = false := by
  unfold trimWS
  cases hz : xs.dropWhile (fun c => isWS c) with
  | nil => left; rfl
  | cons e t =>
    rcases dropTrail_head e t with h0 | ⟨t', h0⟩
    · left; rw [h0]
    · right
      exact ⟨e, t', h0, dropWhile_head_pred _ xs e t hz⟩

theorem trimWS_idem (xs : List Nat) : trimWS (trimWS xs) = trimWS xs := by
  unfold trimWS
  have hdw : (dropTrail (xs.dropWhile (fun c => isWS c))).dropWhile (fun c => isWS c) =
      dropTrail (xs.dropWhile (fun c => isWS c)) := by
    refine dropWhile_id_of_head _ _ ?_
    intro e t het
    cases hz : xs.dropWhile (fun c => isWS c) with
    | nil => rw [hz] at het; exact absurd het (by simp [dropTrail])
    | cons e' t' =>
      rcases dropTrail_head e' t' with h0 | ⟨t'', h0⟩
      · rw [hz, h0] at het; exact absurd het (by simp)
      · rw [hz, h0] at het
        injection het with h1 _
        rw [← h1]
        exact dropWhile_head_pred _ xs e' t' hz
  rw [hdw, dropTrail_idem]

theorem mem_dropWhile_of_pred (p : Nat → Bool) (c : Nat) (l : List Nat)
    (hc : c ∈ l) (hp : p c = false) : c ∈ l.dropWhile p := by
  induction l with
  | nil => exact absurd hc (by simp)
  | cons a rest ih =>
    rw [List.dropWhile_cons]
    split
    · rename_i hpa
      rcases List.mem_cons.mp hc with rfl | hcr
      · rw [hpa] at hp; exact absurd hp (by simp)
      · exact ih hcr
    · exact hc

theorem mem_dropTrail (c : Nat) (l : List Nat) (hc : c ∈ l) (hp : isWS c = false) :
    c ∈ dropTrail l := by
  induction l with
  | nil => exact absurd hc (by simp)
  | cons a rest ih =>
    cases hdt : dropTrail rest with
    | nil =>
      have hd2 : dropTrail (a :: rest) = if isWS a then [] else [a] := by
        show (match dropTrail rest with
          | [] => if isWS a then [] else [a]
          | d :: t => a :: d :: t) = _
        rw [hdt]
      rw [hd2]
      rcases List.mem_cons.mp hc with rfl | hcr
      · rw [if_neg (by rw [hp]; simp)]
        exact List.mem_singleton.mpr rfl
      · have := ih hcr
        rw [hdt] at this
        exact absurd this (by simp)
    | cons d t =>
      have hd2 : dropTrail (a :: rest) = a :: d :: t := by
        show (match dropTrail rest with
          | [] => if isWS a then [] else [a]
          | d :: t => a :: d :: t) = _
        rw [hdt]
      rw [hd2]
      rcases List.mem_cons.mp hc with rfl | hcr
      · exact List.mem_cons_self c (d :: t)
      · have := ih hcr
        rw [hdt] at this
        exact List.mem_cons_of_mem a this

theorem mem_trimWS (c : Nat) (xs : List Nat) (hc : c ∈ xs) (hp : isWS c = false) :
    c ∈ trimWS xs := by
  unfold trimWS
  exact mem_dropTrail c _ (mem_dropWhile_of_pred _ c xs hc hp) hp

theorem trimWS_sublist (xs : List Nat) : (trimWS xs).Sublist xs :=
  (dropTrail_sublist _).trans (List.dropWhile_sublist _)

theorem noAdj_trimWS (bad : Nat → Nat → Bool) (xs : List Nat)
    (h : noAdj bad xs = true) : noAdj bad (trimWS xs) = true :=
  noAdj_dropTrail bad _ (noAdj_dropWhile bad _ xs h)

/-! # Denylist-removal lemmas -/

theorem startsLow_false_of_short (pat xs : List Nat) (h : xs.length < pat.length) :
    startsLow pat xs = false := by
  unfold startsLow
  rw [decide_eq_false_iff_not]
  intro hc
  have hlen := congrArg List.length hc
  simp only [low, List.length_map, List.length_take] at hlen
  omega

theorem denyHead_len (xs : List Nat) (h : denyHead xs = true) : 4 ≤ xs.length := by
  by_contra hlen
  push_neg at hlen
  unfold denyHead at h
  rw [startsLow_false_of_short FREE xs (by simp [FREE]; omega),
    startsLow_false_of_short URGENT xs (by simp [URGENT]; omega),
    startsLow_false_of_short ACTNOW xs (by simp [ACTNOW]; omega)] at h
  exact absurd h (by decide)

theorem removeDeny_len (xs : List Nat) : (removeDeny xs).length ≤ xs.length := by
  induction xs using removeDeny.induct with
  | case1 c1 c2 c3 c4 c5 c6 c7 rest h1 ih =>
    rw [show removeDeny (c1 :: c2 :: c3 :: c4 :: c5 :: c6 :: c7 :: rest) = removeDeny rest
      from by simp [removeDeny, h1]]
    simp only [List.length_cons]
    omega
  | case2 c1 c2 c3 c4 c5 c6 c7 rest h1 h2 ih =>
    rw [show removeDeny (c1 :: c2 :: c3 :: c4 :: c5 :: c6 :: c7 :: rest) =
        removeDeny (c7 :: rest) from by simp [removeDeny, h1, h2]]
    simp only [List.length_cons] at ih ⊢
    omega
  | case3 c1 c2 c3 c4 c5 c6 c7 rest h1 h2 h3 ih =>
    rw [show removeDeny (c1 :: c2 :: c3 :: c4 :: c5 :: c6 :: c7 :: rest) =
        removeDeny (c5 :: c6 :: c7 :: rest) from by simp [removeDeny, h1, h2, h3]]
    simp only [List.length_cons] at ih ⊢
    omega
  | case4 c1 c2 c3 c4 c5 c6 c7 rest h1 h2 h3 ih =>
    rw [show removeDeny (c1 :: c2 :: c3 :: c4 :: c5 :: c6 :: c7 :: rest) =
        c1 :: removeDeny (c2 :: c3 :: c4 :: c5 :: c6 :: c7 :: rest) from by
      simp [removeDeny, h1, h2, h3]]
    simp only [List.length_cons] at ih ⊢
    omega
  | case5 c1 c2 c3 c4 c5 c6 h1 =>
    rw [show removeDeny [c1, c2, c3, c4, c5, c6] = [] from by simp [removeDeny, h1]]
    simp
  | case6 c1 c2 c3 c4 c5 c6 h1 h2 ih =>
    rw [show removeDeny [c1, c2, c3, c4, c5, c6] = removeDeny [c5, c6] from by
      simp [removeDeny, h1, h2]]
    simp only [List.length_cons] at ih ⊢
    omega
  | case7 c1 c2 c3 c4 c5 c6 h1 h2 ih =>
    rw [show removeDeny [c1, c2, c3, c4, c5, c6] = c1 :: removeDeny [c2, c3, c4, c5, c6]
      from by simp [removeDeny, h1, h2]]
    simp only [List.length_cons] at ih ⊢
    omega
  | case8 c1 c2 c3 c4 c5 h1 ih =>
    rw [show removeDeny [c1, c2, c3, c4, c5] = removeDeny [c5] from by
      simp [removeDeny, h1]]
    simp only [List.length_cons] at ih ⊢
    omega
  | case9 c1 c2 c3 c4 c5 h1 ih =>
    rw [show removeDeny [c1, c2, c3, c4, c5] = c1 :: removeDeny [c2, c3, c4, c5] from by
      simp [removeDeny, h1]]
    simp only [List.length_cons] at ih ⊢
    omega
  | case10 c1 c2 c3 c4 h1 =>
    rw [show removeDeny [c1, c2, c3, c4] = [] from by simp [removeDeny, h1]]
    simp
  | case11 c1 c2 c3 c4 h1 ih =>
    rw [show removeDeny [c1, c2, c3, c4] = c1 :: removeDeny [c2, c3, c4] from by
      simp [removeDeny, h1]]
    simp only [List.length_cons] at ih ⊢
    omega
  | case12 c1 rest hn1 hn2 hn3 hn4 ih =>
    have he : removeDeny (c1 :: rest) = c1 :: removeDeny rest := by
      cases rest with
      | nil => rfl
      | cons c2 r2 =>
        cases r2 with
        | nil => rfl
        | cons c3 r3 =>
          cases r3 with
          | nil => rfl
          | cons c4 r4 =>
            cases r4 with
            | nil => exact absurd rfl (hn4 c2 c3 c4)
            | cons c5 r5 =>
              cases r5 with
              | nil => exact absurd rfl (hn3 c2 c3 c4 c5)
              | cons c6 r6 =>
                cases r6 with
                | nil => exact absurd rfl (hn2 c2 c3 c4 c5 c6)
                | cons c7 r7 => exact absurd rfl (hn1 c2 c3 c4 c5 c6 c7 r7)
    rw [he]
    simp only [List.length_cons] at ih ⊢
    omega
  | case13 => simp [removeDeny]

theorem hasOcc_cons_false (c : Nat) (l : List Nat) (h : hasOcc (c :: l) = false) :
    denyHead (c :: l) = false ∧ hasOcc l = false := by
  rw [show hasOcc (c :: l) = (denyHead (c :: l) || hasOcc l) from rfl] at h
  exact Bool.or_eq_false_iff.mp h

theorem denyHead_false_parts (xs : List Nat) (h : denyHead xs = false) :
    startsLow FREE xs = false ∧ startsLow URGENT xs = false ∧
      startsLow ACTNOW xs = false := by
  unfold denyHead at h
  have h1 := Bool.or_eq_false_iff.mp h
  have h2 := Bool.or_eq_false_iff.mp h1.1
  exact ⟨h2.1, h2.2, h1.2⟩

theorem denyHead_true_intro (xs : List Nat)
    (h : startsLow FREE xs = true ∨ startsLow URGENT xs = true ∨
      startsLow ACTNOW xs = true) : denyHead xs = true := by
  unfold denyHead
  rcases h with h | h | h <;> simp [h]

theorem shortTail_len (rest : List Nat)
    (hn1 : ∀ (c2 c3 c4 c5 c6 c7 : Nat) (r : List Nat),
      rest = c2 :: c3 :: c4 :: c5 :: c6 :: c7 :: r → False)
    (hn2 : ∀ c2 c3 c4 c5 c6, rest = [c2, c3, c4, c5, c6] → False)
    (hn3 : ∀ c2 c3 c4 c5, rest = [c2, c3, c4, c5] → False)
    (hn4 : ∀ c2 c3 c4, rest = [c2, c3, c4] → False) : rest.length ≤ 2 := by
  cases rest with
  | nil => simp
  | cons c2 r2 =>
    cases r2 with
    | nil => simp
    | cons c3 r3 =>
      cases r3 with
      | nil => simp
      | cons c4 r4 =>
        cases r4 with
        | nil => exact absurd rfl (hn4 c2 c3 c4)
        | cons c5 r5 =>
          cases r5 with
          | nil => exact absurd rfl (hn3 c2 c3 c4 c5)
          | cons c6 r6 =>
            cases r6 with
            | nil => exact absurd rfl (hn2 c2 c3 c4 c5 c6)
            | cons c7 r7 => exact absurd rfl (hn1 c2 c3 c4 c5 c6 c7 r7)

theorem removeDeny_id_of_not_occ (xs : List Nat) (h : hasOcc xs = false) :
    removeDeny xs = xs := by
  induction xs using removeDeny.induct with
  | case1 c1 c2 c3 c4 c5 c6 c7 rest h1 ih =>
    have hd := (denyHead_false_parts _ (hasOcc_cons_false _ _ h).1).2.2
    rw [show startsLow ACTNOW (c1 :: c2 :: c3 :: c4 :: c5 :: c6 :: c7 :: rest) =
      decide (low [c1, c2, c3, c4, c5, c6, c7] = ACTNOW) from rfl] at hd
    exact absurd h1 (of_decide_eq_false hd)
  | case2 c1 c2 c3 c4 c5 c6 c7 rest h1 h2 ih =>
    have hd := (denyHead_false_parts _ (hasOcc_cons_false _ _ h).1).2.1
    rw [show startsLow URGENT (c1 :: c2 :: c3 :: c4 :: c5 :: c6 :: c7 :: rest) =
      decide (low [c1, c2, c3, c4, c5, c6] = URGENT) from rfl] at hd
    exact absurd h2 (of_decide_eq_false hd)
  | case3 c1 c2 c3 c4 c5 c6 c7 rest h1 h2 h3 ih =>
    have hd := (denyHead_false_parts _ (hasOcc_cons_false _ _ h).1).1
    rw [show startsLow FREE (c1 :: c2 :: c3 :: c4 :: c5 :: c6 :: c7 :: rest) =
      decide (low [c1, c2, c3, c4] = FREE) from rfl] at hd
    exact absurd h3 (of_decide_eq_false hd)
  | case4 c1 c2 c3 c4 c5 c6 c7 rest h1 h2 h3 ih =>
    rw [show removeDeny (c1 :: c2 :: c3 :: c4 :: c5 :: c6 :: c7 :: rest) =
        c1 :: removeDeny (c2 :: c3 :: c4 :: c5 :: c6 :: c7 :: rest) from by
      simp [removeDeny, h1, h2, h3]]
    rw [ih (hasOcc_cons_false _ _ h).2]
  | case5 c1 c2 c3 c4 c5 c6 h1 =>
    have hd := (denyHead_false_parts _ (hasOcc_cons_false _ _ h).1).2.1
    rw [show startsLow URGENT [c1, c2, c3, c4, c5, c6] =
      decide (low [c1, c2, c3, c4, c5, c6] = URGENT) from rfl] at hd
    exact absurd h1 (of_decide_eq_false hd)
  | case6 c1 c2 c3 c4 c5 c6 h1 h2 ih =>
    have hd := (denyHead_false_parts _ (hasOcc_cons_false _ _ h).1).1
    rw [show startsLow FREE [c1, c2, c3, c4, c5, c6] =
      decide (low [c1, c2, c3, c4] = FREE) from rfl] at hd
    exact absurd h2 (of_decide_eq_false hd)
  | case7 c1 c2 c3 c4 c5 c6 h1 h2 ih =>
    rw [show removeDeny [c1, c2, c3, c4, c5, c6] = c1 :: removeDeny [c2, c3, c4, c5, c6]
      from by simp [removeDeny, h1, h2]]
    rw [ih (hasOcc_cons_false _ _ h).2]
  | case8 c1 c2 c3 c4 c5 h1 ih =>
    have hd := (denyHead_false_parts _ (hasOcc_cons_false _ _ h).1).1
    rw [show startsLow FREE [c1, c2, c3, c4, c5] =
      decide (low [c1, c2, c3, c4] = FREE) from rfl] at hd
    exact absurd h1 (of_decide_eq_false hd)
  | case9 c1 c2 c3 c4 c5 h1 ih =>
    rw [show removeDeny [c1, c2, c3, c4, c5] = c1 :: removeDeny [c2, c3, c4, c5] from by
      simp [removeDeny, h1]]
    rw [ih (hasOcc_cons_false _ _ h).2]
  | case10 c1 c2 c3 c4 h1 =>
    have hd := (denyHead_false_parts _ (hasOcc_cons_false _ _ h).1).1
    rw [show startsLow FREE [c1, c2, c3, c4] =
      decide (low [c1, c2, c3, c4] = FREE) from rfl] at hd
    exact absurd h1 (of_decide_eq_false hd)
  | case11 c1 c2 c3 c4 h1 ih =>
    rw [show removeDeny [c1, c2, c3, c4] = c1 :: removeDeny [c2, c3, c4] from by
      simp [removeDeny, h1]]
    rw [ih (hasOcc_cons_false _ _ h).2]
  | case12 c1 rest hn1 hn2 hn3 hn4 ih =>
    have he : removeDeny (c1 :: rest) = c1 :: removeDeny rest := by
      have hlen := shortTail_len rest hn1 hn2 hn3 hn4
      cases rest with
      | nil => rfl
      | cons c2 r2 =>
        cases r2 with
        | nil => rfl
        | cons c3 r3 =>
          cases r3 with
          | nil => rfl
          | cons c4 r4 => simp at hlen
    rw [he, ih (hasOcc_cons_false _ _ h).2]
  | case13 => rfl

theorem hasOcc_false_of_removeDeny_id (xs : List Nat) (h : removeDeny xs = xs) :
    hasOcc xs = false := by
  induction xs using removeDeny.induct with
  | case1 c1 c2 c3 c4 c5 c6 c7 rest h1 ih =>
    rw [show removeDeny (c1 :: c2 :: c3 :: c4 :: c5 :: c6 :: c7 :: rest) = removeDeny rest
      from by simp [removeDeny, h1]] at h
    have h2 := congrArg List.length h
    have h3 := removeDeny_len rest
    simp only [List.length_cons] at h2
    omega
  | case2 c1 c2 c3 c4 c5 c6 c7 rest h1 h2 ih =>
    rw [show removeDeny (c1 :: c2 :: c3 :: c4 :: c5 :: c6 :: c7 :: rest) =
        removeDeny (c7 :: rest) from by simp [removeDeny, h1, h2]] at h
    have ha := congrArg List.length h
    have hb := removeDeny_len (c7 :: rest)
    simp only [List.length_cons] at ha hb
    omega
  | case3 c1 c2 c3 c4 c5 c6 c7 rest h1 h2 h3 ih =>
    rw [show removeDeny (c1 :: c2 :: c3 :: c4 :: c5 :: c6 :: c7 :: rest) =
        removeDeny (c5 :: c6 :: c7 :: rest) from by simp [removeDeny, h1, h2, h3]] at h
    have ha := congrArg List.length h
    have hb := removeDeny_len (c5 :: c6 :: c7 :: rest)
    simp only [List.length_cons] at ha hb
    omega
  | case4 c1 c2 c3 c4 c5 c6 c7 rest h1 h2 h3 ih =>
    rw [show removeDeny (c1 :: c2 :: c3 :: c4 :: c5 :: c6 :: c7 :: rest) =
        c1 :: removeDeny (c2 :: c3 :: c4 :: c5 :: c6 :: c7 :: rest) from by
      simp [removeDeny, h1, h2, h3]] at h
    have htail : removeDeny (c2 :: c3 :: c4 :: c5 :: c6 :: c7 :: rest) =
        c2 :: c3 :: c4 :: c5 :: c6 :: c7 :: rest := by
      injection h
    show (denyHead (c1 :: c2 :: c3 :: c4 :: c5 :: c6 :: c7 :: rest) ||
      hasOcc (c2 :: c3 :: c4 :: c5 :: c6 :: c7 :: rest)) = false
    rw [ih htail]
    have hdh : denyHead (c1 :: c2 :: c3 :: c4 :: c5 :: c6 :: c7 :: rest) = false := by
      unfold denyHead
      rw [show startsLow FREE (c1 :: c2 :: c3 :: c4 :: c5 :: c6 :: c7 :: rest) =
          decide (low [c1, c2, c3, c4] = FREE) from rfl,
        show startsLow URGENT (c1 :: c2 :: c3 :: c4 :: c5 :: c6 :: c7 :: rest) =
          decide (low [c1, c2, c3, c4, c5, c6] = URGENT) from rfl,
        show startsLow ACTNOW (c1 :: c2 :: c3 :: c4 :: c5 :: c6 :: c7 :: rest) =
          decide (low [c1, c2, c3, c4, c5, c6, c7] = ACTNOW) from rfl,
        decide_eq_false h3, decide_eq_false h2, decide_eq_false h1]
      rfl
    rw [hdh]
    rfl
  | case5 c1 c2 c3 c4 c5 c6 h1 =>
    rw [show removeDeny [c1, c2, c3, c4, c5, c6] = [] from by simp [removeDeny, h1]] at h
    exact absurd h (by simp)
  | case6 c1 c2 c3 c4 c5 c6 h1 h2 ih =>
    rw [show removeDeny [c1, c2, c3, c4, c5, c6] = removeDeny [c5, c6] from by
      simp [removeDeny, h1, h2]] at h
    have ha := congrArg List.length h
    have hb := removeDeny_len [c5, c6]
    simp only [List.length_cons] at ha hb
    omega
  | case7 c1 c2 c3 c4 c5 c6 h1 h2 ih =>
    rw [show removeDeny [c1, c2, c3, c4, c5, c6] = c1 :: removeDeny [c2, c3, c4, c5, c6]
      from by simp [removeDeny, h1, h2]] at h
    have htail : removeDeny [c2, c3, c4, c5, c6] = [c2, c3, c4, c5, c6] := by injection h
    show (denyHead [c1, c2, c3, c4, c5, c6] || hasOcc [c2, c3, c4, c5, c6]) = false
    rw [ih htail]
    have hdh : denyHead [c1, c2, c3, c4, c5, c6] = false := by
      unfold denyHead
      rw [show startsLow FREE [c1, c2, c3, c4, c5, c6] =
          decide (low [c1, c2, c3, c4] = FREE) from rfl,
        show startsLow URGENT [c1, c2, c3, c4, c5, c6] =
          decide (low [c1, c2, c3, c4, c5, c6] = URGENT) from rfl,
        startsLow_false_of_short ACTNOW _ (by simp [ACTNOW]),
        decide_eq_false h2, decide_eq_false h1]
      rfl
    rw [hdh]
    rfl
  | case8 c1 c2 c3 c4 c5 h1 ih =>
    rw [show removeDeny [c1, c2, c3, c4, c5] = removeDeny [c5] from by
      simp [removeDeny, h1]] at h
    have ha := congrArg List.length h
    have hb := removeDeny_len [c5]
    simp only [List.length_cons] at ha hb
    omega
  | case9 c1 c2 c3 c4 c5 h1 ih =>
    rw [show removeDeny [c1, c2, c3, c4, c5] = c1 :: removeDeny [c2, c3, c4, c5] from by
      simp [removeDeny, h1]] at h
    have htail : removeDeny [c2, c3, c4, c5] = [c2, c3, c4, c5] := by injection h
    show (denyHead [c1, c2, c3, c4, c5] || hasOcc [c2, c3, c4, c5]) = false
    rw [ih htail]
    have hdh : denyHead [c1, c2, c3, c4, c5] = false := by
      unfold denyHead
      rw [show startsLow FREE [c1, c2, c3, c4, c5] =
          decide (low [c1, c2, c3, c4] = FREE) from rfl,
        startsLow_false_of_short URGENT _ (by simp [URGENT]),
        startsLow_false_of_short ACTNOW _ (by simp [ACTNOW]),
        decide_eq_false h1]
      rfl
    rw [hdh]
    rfl
  | case10 c1 c2 c3 c4 h1 =>
    rw [show removeDeny [c1, c2, c3, c4] = [] from by simp [removeDeny, h1]] at h
    exact absurd h (by simp)
  | case11 c1 c2 c3 c4 h1 ih =>
    rw [show removeDeny [c1, c2, c3, c4] = c1 :: removeDeny [c2, c3, c4] from by
      simp [removeDeny, h1]] at h
    have htail : removeDeny [c2, c3, c4] = [c2, c3, c4] := by injection h
    show (denyHead [c1, c2, c3, c4] || hasOcc [c2, c3, c4]) = false
    rw [ih htail]
    have hdh : denyHead [c1, c2, c3, c4] = false := by
      unfold denyHead
      rw [show startsLow FREE [c1, c2, c3, c4] =
          decide (low [c1, c2, c3, c4] = FREE) from rfl,
        startsLow_false_of_short URGENT _ (by simp [URGENT]),
        startsLow_false_of_short ACTNOW _ (by simp [ACTNOW]),
        decide_eq_false h1]
      rfl
    rw [hdh]
    rfl
  | case12 c1 rest hn1 hn2 hn3 hn4 ih =>
    have hlen := shortTail_len rest hn1 hn2 hn3 hn4
    have he : removeDeny (c1 :: rest) = c1 :: removeDeny rest := by
      cases rest with
      | nil => rfl
      | cons c2 r2 =>
        cases r2 with
        | nil => rfl
        | cons c3 r3 =>
          cases r3 with
          | nil => rfl
          | cons c4 r4 => simp at hlen
    rw [he] at h
    have htail : removeDeny rest = rest := by injection h
    show (denyHead (c1 :: rest) || hasOcc rest) = false
    rw [ih htail]
    have hdh : denyHead (c1 :: rest) = false := by
      cases hdh : denyHead (c1 :: rest) with
      | false => rfl
      | true =>
        have := denyHead_len _ hdh
        simp only [List.length_cons] at this
        omega
    rw [hdh]
    rfl
  | case13 => rfl

/-! # Occurrence monotonicity -/

theorem hasOcc_dropWhile_mono (p : Nat → Bool) (l : List Nat)
    (h : hasOcc (l.dropWhile p) = true) : hasOcc l = true := by
  induction l with
  | nil => simpa using h
  | cons a rest ih =>
    rw [List.dropWhile_cons] at h
    split at h
    · show (denyHead (a :: rest) || hasOcc rest) = true
      rw [ih h]
      simp
    · exact h

theorem startsLow_append (pat xs s : List Nat) (h : startsLow pat xs = true) :
    startsLow pat (xs ++ s) = true := by
  unfold startsLow at h ⊢
  rw [decide_eq_true_eq] at h ⊢
  have hlen : (low (xs.take pat.length)).length = pat.length := by rw [h]
  simp only [low, List.length_map, List.length_take] at hlen
  have hle : pat.length ≤ xs.length := by omega
  rw [List.take_append_of_le_length hle]
  exact h

theorem hasOcc_append_left (l s : List Nat) (h : hasOcc l = true) :
    hasOcc (l ++ s) = true := by
  induction l with
  | nil => exact absurd h (by simp [hasOcc])
  | cons c t ih =>
    rw [show hasOcc (c :: t) = (denyHead (c :: t) || hasOcc t) from rfl] at h
    show (denyHead (c :: t ++ s) || hasOcc (t ++ s)) = true
    rcases Bool.or_eq_true_iff.mp h with hd | ht
    · unfold denyHead at hd
      rcases Bool.or_eq_true_iff.mp hd with hd2 | hd3
      · rcases Bool.or_eq_true_iff.mp hd2 with hf | hu
        · rw [denyHead_true_intro _ (Or.inl (startsLow_append _ _ s hf))]; rfl
        · rw [denyHead_true_intro _ (Or.inr (Or.inl (startsLow_append _ _ s hu)))]; rfl
      · rw [denyHead_true_intro _ (Or.inr (Or.inr (startsLow_append _ _ s hd3)))]; rfl
    · rw [ih ht]; simp

theorem hasOcc_dropTrail_mono (l : List Nat) (h : hasOcc (dropTrail l) = true) :
    hasOcc l = true := by
  obtain ⟨s, hs⟩ := dropTrail_exists_append l
  rw [← hs]
  exact hasOcc_append_left _ s h

theorem hasOcc_trimWS_false (xs : List Nat) (h : hasOcc xs = false) :
    hasOcc (trimWS xs) = false := by
  cases ht : hasOcc (trimWS xs) with
  | false => rfl
  | true =>
    unfold trimWS at ht
    have := hasOcc_dropWhile_mono _ xs (hasOcc_dropTrail_mono _ ht)
    rw [h] at this
    exact absurd this (by decide)

/-! # Second application of the caps rule -/

theorem capsLower_trimWS (w : List Nat) :
    capsLower (trimWS (capsLower w)) = trimWS (capsLower w) := by
  by_cases h : w ≠ [] ∧ capsAll w = true
  · have hcl : capsLower w = w.map lowerAZ := by unfold capsLower; rw [if_pos h]
    have hnu : ∀ c ∈ w.map lowerAZ, isUpperAZ c = false := by
      intro c hc
      obtain ⟨c', hc', rfl⟩ := List.mem_map.mp hc
      refine lowerAZ_not_upper c' ?_
      have h2 : w.all (fun c => isUpperAZ c || isWS c) = true := h.2
      exact List.all_eq_true.mp h2 c' hc'
    rcases trimWS_head (capsLower w) with h0 | ⟨e, t, h0, he⟩
    · rw [h0]; rfl
    · rw [h0]
      have hemem : e ∈ capsLower w :=
        (trimWS_sublist (capsLower w)).subset (h0 ▸ List.mem_cons_self e t)
      rw [hcl] at hemem
      have heu : isUpperAZ e = false := hnu e hemem
      have hca : capsAll (e :: t) = false := by
        unfold capsAll
        rw [List.all_cons, heu, he]
        rfl
      unfold capsLower
      rw [if_neg (by
        intro hcontra
        rw [hca] at hcontra
        exact absurd hcontra.2 (by decide))]
  · have hcl : capsLower w = w := by unfold capsLower; rw [if_neg h]
    rw [hcl]
    by_cases hw : w = []
    · subst hw; rfl
    · have hca : capsAll w = false := by
        cases hcab : capsAll w with
        | false => rfl
        | true => exact absurd ⟨hw, hcab⟩ h
      have hca' : w.all (fun c => isUpperAZ c || isWS c) = false := hca
      obtain ⟨c, hcmem, hcp⟩ := List.all_eq_false.mp hca'
      have hcws : isWS c = false := by
        cases hq : isWS c with
        | false => rfl
        | true => exact absurd (by simp [hq]) hcp
      have hcmem2 : c ∈ trimWS w := mem_trimWS c w hcmem hcws
      have hca2 : capsAll (trimWS w) = false := by
        have : (trimWS w).all (fun c => isUpperAZ c || isWS c) = false :=
          List.all_eq_false.mpr ⟨c, hcmem2, hcp⟩
        exact this
      unfold capsLower
      rw [if_neg (by
        intro hcontra
        rw [hca2] at hcontra
        exact absurd hcontra.2 (by decide))]

/-! # C3: subject-normalizer idempotence -/

/-- C3 (amended): `safeSubject` is idempotent on every subject for which
the denylist-removal step leaves its input (the whitespace- and
punctuation-collapsed, case-normalized subject) unchanged — that is, the
intermediate contains no case-insensitive occurrence of "free", "urgent"
or "act now".  (In general a removal can merge the surrounding whitespace
into a fresh run that only a second pass collapses, so the unrestricted
claim is false.) -/
theorem safeSubject_idem_amended (s : List Nat)
    (h : removeDeny (capsLower (collapsePunct (collapseWS s))) =
      capsLower (collapsePunct (collapseWS s))) :
    safeSubject (safeSubject s) = safeSubject s := by
  set u := capsLower (collapsePunct (collapseWS s)) with hu
  have h1 : safeSubject s = trimWS u := by
    unfold safeSubject
    rw [← hu, h]
  rw [h1]
  have hws : noAdj wsbad u = true := by
    rw [hu]
    refine noAdj_wsbad_capsLower _ ?_
    show noAdj wsbad (collPunctAux none (collapseWS s)) = true
    exact collPunct_preserves_wsbad (collapseWS s).length (collapseWS s) (Nat.le_refl _)
      (noAdj_wsbad_collWS false s)
  have hpp : noAdj ppbad u = true := by
    rw [hu]
    refine noAdj_ppbad_capsLower _ ?_
    show noAdj ppbad (collPunctAux none (collapseWS s)) = true
    exact noAdj_ppbad_collPunct (collapseWS s).length (collapseWS s) (Nat.le_refl _)
  have htws : noAdj wsbad (trimWS u) = true := noAdj_trimWS wsbad u hws
  have htpp : noAdj ppbad (trimWS u) = true := noAdj_trimWS ppbad u hpp
  unfold safeSubject
  rw [show collapseWS (trimWS u) = trimWS u from collWS_fix _ htws]
  rw [show collapsePunct (trimWS u) = trimWS u from collPunct_fix _ htpp]
  rw [show capsLower (trimWS u) = trimWS u from by rw [hu]; exact capsLower_trimWS _]
  rw [show removeDeny (trimWS u) = trimWS u from
    removeDeny_id_of_not_occ _ (hasOcc_trimWS_false u (hasOcc_false_of_removeDeny_id u h))]
  exact trimWS_idem u

theorem safeSubject_idem_amended_witness :
    safeSubject (safeSubject exEmbed) = safeSubject exEmbed :=
  safeSubject_idem_amended exEmbed (by decide)

/-- C3 counterexample: on the subject `"a free b"` the denylist removal
leaves a double space, so a second application of `safeSubject` collapses
it and yields a different string — `safeSubject` is not idempotent. -/
theorem safeSubject_idem_cex :
    safeSubject exFree = [97, 32, 32, 98] ∧
    safeSubject (safeSubject exFree) = [97, 32, 98] ∧
    safeSubject (safeSubject exFree) ≠ safeSubject exFree := by
  refine ⟨by decide, by decide, by decide⟩

/-! # Soften-regex stepping lemmas -/

theorem go_true_eq (w r xs : List Nat) : replTrigGo w r true xs =
    match anchorMatch w xs with
    | some k => r ++ replTrigGo w r false (xs.drop k)
    | none => replTrigGo w r false xs := by
  rw [replTrigGo.eq_def]

theorem go_false_cons_eq (w r : List Nat) (c : Nat) (rest : List Nat) :
    replTrigGo w r false (c :: rest) =
      if c = 10 then c :: replTrigGo w r true rest
      else c :: replTrigGo w r false rest := by
  rw [replTrigGo.eq_def]

theorem go_false_nil (w r : List Nat) : replTrigGo w r false [] = [] := by
  rw [replTrigGo.eq_def]

theorem go_false_cons_ne (w r : List Nat) (c : Nat) (rest : List Nat) (h : ¬c = 10) :
    replTrigGo w r false (c :: rest) = c :: replTrigGo w r false rest := by
  rw [go_false_cons_eq, if_neg h]

theorem go_false_cons_10 (w r : List Nat) (rest : List Nat) :
    replTrigGo w r false (10 :: rest) = 10 :: replTrigGo w r true rest := by
  rw [go_false_cons_eq, if_pos rfl]

theorem go_true_none (w r xs : List Nat) (h : anchorMatch w xs = none) :
    replTrigGo w r true xs = replTrigGo w r false xs := by
  rw [go_true_eq, h]

theorem go_true_some (w r xs : List Nat) (k : Nat) (h : anchorMatch w xs = some k) :
    replTrigGo w r true xs = r ++ replTrigGo w r false (xs.drop k) := by
  rw [go_true_eq, h]

theorem replTrigGo_false_id (w r s : List Nat) (h : ¬10 ∈ s) :
    replTrigGo w r false s = s := by
  induction s with
  | nil => exact go_false_nil w r
  | cons c rest ih =>
    have hc : ¬c = 10 := fun hc => h (hc ▸ List.mem_cons_self c rest)
    rw [go_false_cons_ne w r c rest hc,
      ih (fun hm => h (List.mem_cons_of_mem c hm))]

/-! # Preprocessing identity lemmas -/

theorem replRN_id (t : List Nat) (h : ¬13 ∈ t) : replRN t = t := by
  induction t using replRN.induct with
  | case1 => rfl
  | case2 c => rfl
  | case3 c d rest h1 ih =>
    exact absurd (h1.1 ▸ List.mem_cons_self 13 (d :: rest)) h
  | case4 c d rest h1 ih =>
    show (if c = 13 ∧ d = 10 then 10 :: replRN rest else c :: replRN (d :: rest)) = _
    rw [if_neg h1, ih (fun hm => h (List.mem_cons_of_mem c hm))]

theorem collNLaux_id (t : List Nat) (h : ¬10 ∈ t) (k : Nat) : collNLaux k t = t := by
  induction t generalizing k with
  | nil => rfl
  | cons c rest ih =>
    have hc : ¬c = 10 := fun hc => h (hc ▸ List.mem_cons_self c rest)
    show (if c = 10 then _ else c :: collNLaux 0 rest) = _
    rw [if_neg hc, ih (fun hm => h (List.mem_cons_of_mem c hm)) 0]

/-! # Anchored-match analysis -/

theorem trimWS_dropWhile_fix (t : List Nat) :
    (trimWS t).dropWhile (fun c => isWS c) = trimWS t := by
  refine dropWhile_id_of_head _ _ ?_
  intro e tt het
  rcases trimWS_head t with h0 | ⟨e', t', h0, he'⟩
  · rw [h0] at het; exact absurd het (by simp)
  · rw [h0] at het
    injection het with h1 _
    rw [← h1]
    exact he'

theorem trimWS_dropTrail_fix (t : List Nat) : dropTrail (trimWS t) = trimWS t := by
  unfold trimWS
  exact dropTrail_idem _

theorem anchorMatch_none_of_take (w s : List Nat)
    (hfix : s.dropWhile (fun c => isWS c) = s)
    (hne : ¬low (s.take w.length) = w) : anchorMatch w s = none := by
  unfold anchorMatch
  rw [hfix, if_neg hne]

theorem tailWSLen_none (xs : List Nat) (h10 : ¬10 ∈ xs)
    (hall : xs.all (fun c => isWS c) = false) : tailWSLen xs = none := by
  induction xs with
  | nil => simp at hall
  | cons c rest ih =>
    show (if isWS c then
      match tailWSLen rest with
      | some k => some (k + 1)
      | none => if c = 10 then some 0 else none
      else none) = none
    cases hc : isWS c with
    | false => rw [if_neg (by simp [hc])]
    | true =>
      rw [if_pos (by simp [hc])]
      have hrest : rest.all (fun c => isWS c) = false := by
        rw [List.all_cons, hc] at hall
        simpa using hall
      rw [ih (fun hm => h10 (List.mem_cons_of_mem c hm)) hrest]
      rw [if_neg (fun hc10 => h10 (by rw [← hc10]; exact List.mem_cons_self c rest))]

theorem dropTrail_all_ws (s : List Nat) (h : s.all (fun c => isWS c) = true) :
    dropTrail s = [] := by
  induction s with
  | nil => rfl
  | cons c rest ih =>
    rw [List.all_cons] at h
    have hc : isWS c = true := (Bool.and_eq_true_iff.mp h).1
    have hrest := ih (Bool.and_eq_true_iff.mp h).2
    show (match dropTrail rest with
      | [] => if isWS c then [] else [c]
      | d :: t => c :: d :: t) = []
    rw [hrest, if_pos hc]

theorem drop_all_ws_nil (s : List Nat) (hfix : dropTrail s = s) :
    ∀ k, (s.drop k).all (fun c => isWS c) = true → s.drop k = [] := by
  induction s with
  | nil => intro k _; simp
  | cons c rest ih =>
    intro k hall
    cases k with
    | zero =>
      simp only [List.drop_zero] at hall ⊢
      have hz := dropTrail_all_ws (c :: rest) hall
      rw [hfix] at hz
      exact hz
    | succ k =>
      show rest.drop k = []
      have hfr : dropTrail rest = rest := by
        cases hdt : dropTrail rest with
        | nil =>
          have hd2 : dropTrail (c :: rest) = if isWS c then [] else [c] := by
            show (match dropTrail rest with
              | [] => if isWS c then [] else [c]
              | d :: t => c :: d :: t) = _
            rw [hdt]
          rw [hd2] at hfix
          split at hfix
          · exact absurd hfix (by simp)
          · injection hfix
        | cons d t =>
          have hd2 : dropTrail (c :: rest) = c :: d :: t := by
            show (match dropTrail rest with
              | [] => if isWS c then [] else [c]
              | d :: t => c :: d :: t) = _
            rw [hdt]
          rw [hd2] at hfix
          injection hfix
      exact ih hfr k hall

theorem low_take (xs : List Nat) (n : Nat) : low (xs.take n) = (low xs).take n := by
  unfold low
  exact List.map_take lowerAZ xs n

theorem anchorMatch_none_strong (w s : List Nat) (h10 : ¬10 ∈ s)
    (hdtf : dropTrail s = s) (hdwf : s.dropWhile (fun c => isWS c) = s)
    (hne : ¬low s = w) : anchorMatch w s = none := by
  by_cases ht : low (s.take w.length) = w
  · unfold anchorMatch
    rw [hdwf, if_pos ht]
    have hdnil : ¬s.drop w.length = [] := by
      intro hd
      have hlen : s.length ≤ w.length := List.drop_eq_nil_iff.mp hd
      rw [List.take_of_length_le hlen] at ht
      exact hne ht
    have hall : (s.drop w.length).all (fun c => isWS c) = false := by
      cases hq : (s.drop w.length).all (fun c => isWS c) with
      | false => rfl
      | true => exact absurd (drop_all_ws_nil s hdtf w.length hq) hdnil
    rw [tailWSLen_none _ (fun hm => h10 ((List.drop_sublist _ _).subset hm)) hall]
  · exact anchorMatch_none_of_take w s hdwf ht

theorem replTrig_id (w r s : List Nat) (h10 : ¬10 ∈ s)
    (hnone : anchorMatch w s = none) : replTrig w r s = s := by
  unfold replTrig
  rw [go_true_none w r s hnone]
  exact replTrigGo_false_id w r s h10

theorem replTrig_exact (w r s : List Nat)
    (hdwf : s.dropWhile (fun c => isWS c) = s) (hlow : low s = w) :
    replTrig w r s = r := by
  have hlen : s.length = w.length := by
    rw [← hlow]
    unfold low
    rw [List.length_map]
  have hmatch : anchorMatch w s =
      some ((s.takeWhile (fun c => isWS c)).length + w.length + 0) := by
    unfold anchorMatch
    rw [hdwf, show s.take w.length = s from by rw [← hlen]; exact List.take_length s,
      if_pos hlow, show s.drop w.length = [] from by rw [← hlen]; exact List.drop_length s]
    rfl
  unfold replTrig
  rw [go_true_some w r s _ hmatch,
    show s.drop ((s.takeWhile (fun c => isWS c)).length + w.length + 0) = [] from
      List.drop_eq_nil_of_le (by omega),
    go_false_nil, List.append_nil]

theorem collNL_id (t : List Nat) (h : ¬10 ∈ t) : collNL t = t := collNLaux_id t h 0

theorem mem_trimWS_sub {c : Nat} (t : List Nat) (h : ¬c ∈ t) : ¬c ∈ trimWS t :=
  fun hm => h ((trimWS_sublist t).subset hm)

theorem safeBody_eq_fold (t : List Nat) : safeBody t =
    replTrig W_SCREENSHOT S_SCREENSHOT (replTrig W_PROPOSAL S_PROPOSAL
      (replTrig W_QUOTE S_QUOTE (replTrig W_PRICE S_PRICE
        (replTrig W_REPORT S_REPORT (trimWS (collNL (replRN t))))))) := rfl

theorem safeBody_untouched (t : List Nat) (h10 : ¬10 ∈ t) (h13 : ¬13 ∈ t)
    (hw : ∀ p ∈ soften, ¬low (trimWS t) = p.1) : safeBody t = trimWS t := by
  rw [safeBody_eq_fold, replRN_id t h13, collNL_id t h10]
  have h10s : ¬10 ∈ trimWS t := mem_trimWS_sub t h10
  have hdtf := trimWS_dropTrail_fix t
  have hdwf := trimWS_dropWhile_fix t
  rw [replTrig_id W_REPORT S_REPORT _ h10s (anchorMatch_none_strong _ _ h10s hdtf hdwf
      (hw (W_REPORT, S_REPORT) (by simp [soften]))),
    replTrig_id W_PRICE S_PRICE _ h10s (anchorMatch_none_strong _ _ h10s hdtf hdwf
      (hw (W_PRICE, S_PRICE) (by simp [soften]))),
    replTrig_id W_QUOTE S_QUOTE _ h10s (anchorMatch_none_strong _ _ h10s hdtf hdwf
      (hw (W_QUOTE, S_QUOTE) (by simp [soften]))),
    replTrig_id W_PROPOSAL S_PROPOSAL _ h10s (anchorMatch_none_strong _ _ h10s hdtf hdwf
      (hw (W_PROPOSAL, S_PROPOSAL) (by simp [soften]))),
    replTrig_id W_SCREENSHOT S_SCREENSHOT _ h10s (anchorMatch_none_strong _ _ h10s hdtf hdwf
      (hw (W_SCREENSHOT, S_SCREENSHOT) (by simp [soften])))]

theorem safeBody_word_line (t w r : List Nat) (hp : (w, r) ∈ soften)
    (h10 : ¬10 ∈ t) (h13 : ¬13 ∈ t) (hlow : low (trimWS t) = w) :
    safeBody t = r := by
  rw [safeBody_eq_fold, replRN_id t h13, collNL_id t h10]
  have h10s : ¬10 ∈ trimWS t := mem_trimWS_sub t h10
  have hdwf := trimWS_dropWhile_fix t
  have hpre : ∀ w' : List Nat, ¬(low (trimWS t)).take w'.length = w' →
      anchorMatch w' (trimWS t) = none := by
    intro w' hne
    refine anchorMatch_none_of_take w' _ hdwf ?_
    rw [low_take]
    exact hne
  simp only [soften, List.mem_cons, List.not_mem_nil, or_false, Prod.mk.injEq] at hp
  rcases hp with ⟨rfl, rfl⟩ | ⟨rfl, rfl⟩ | ⟨rfl, rfl⟩ | ⟨rfl, rfl⟩ | ⟨rfl, rfl⟩
  · rw [replTrig_exact W_REPORT S_REPORT _ hdwf hlow,
      replTrig_id W_PRICE S_PRICE _ (by decide) (by decide),
      replTrig_id W_QUOTE S_QUOTE _ (by decide) (by decide),
      replTrig_id W_PROPOSAL S_PROPOSAL _ (by decide) (by decide),
      replTrig_id W_SCREENSHOT S_SCREENSHOT _ (by decide) (by decide)]
  · rw [replTrig_id W_REPORT S_REPORT _ h10s (hpre W_REPORT (by rw [hlow]; decide)),
      replTrig_exact W_PRICE S_PRICE _ hdwf hlow,
      replTrig_id W_QUOTE S_QUOTE _ (by decide) (by decide),
      replTrig_id W_PROPOSAL S_PROPOSAL _ (by decide) (by decide),
      replTrig_id W_SCREENSHOT S_SCREENSHOT _ (by decide) (by decide)]
  · rw [replTrig_id W_REPORT S_REPORT _ h10s (hpre W_REPORT (by rw [hlow]; decide)),
      replTrig_id W_PRICE S_PRICE _ h10s (hpre W_PRICE (by rw [hlow]; decide)),
      replTrig_exact W_QUOTE S_QUOTE _ hdwf hlow,
      replTrig_id W_PROPOSAL S_PROPOSAL _ (by decide) (by decide),
      replTrig_id W_SCREENSHOT S_SCREENSHOT _ (by decide) (by decide)]
  · rw [replTrig_id W_REPORT S_REPORT _ h10s (hpre W_REPORT (by rw [hlow]; decide)),
      replTrig_id W_PRICE S_PRICE _ h10s (hpre W_PRICE (by rw [hlow]; decide)),
      replTrig_id W_QUOTE S_QUOTE _ h10s (hpre W_QUOTE (by rw [hlow]; decide)),
      replTrig_exact W_PROPOSAL S_PROPOSAL _ hdwf hlow,
      replTrig_id W_SCREENSHOT S_SCREENSHOT _ (by decide) (by decide)]
  · rw [replTrig_id W_REPORT S_REPORT _ h10s (hpre W_REPORT (by rw [hlow]; decide)),
      replTrig_id W_PRICE S_PRICE _ h10s (hpre W_PRICE (by rw [hlow]; decide)),
      replTrig_id W_QUOTE S_QUOTE _ h10s (hpre W_QUOTE (by rw [hlow]; decide)),
      replTrig_id W_PROPOSAL S_PROPOSAL _ h10s (hpre W_PROPOSAL (by rw [hlow]; decide)),
      replTrig_exact W_SCREENSHOT S_SCREENSHOT _ hdwf hlow]

/-! # Evaluation of the body normalizer on the multi-line example -/

theorem replTrig_exMulti_id (w r : List Nat)
    (h1 : anchorMatch w exMulti = none)
    (h2 : anchorMatch w [10, 112, 114, 105, 99, 101] = none)
    (h3 : anchorMatch w [112, 114, 105, 99, 101] = none) :
    replTrig w r exMulti = exMulti := by
  unfold replTrig
  rw [go_true_none w r _ h1]
  show replTrigGo w r false (97 :: 10 :: 10 :: 112 :: 114 :: 105 :: 99 :: [101]) = exMulti
  rw [go_false_cons_ne w r 97 _ (by decide), go_false_cons_10,
    go_true_none w r _ h2, go_false_cons_10, go_true_none w r _ h3,
    replTrigGo_false_id w r _ (by decide)]
  rfl

theorem replTrig_price_exMulti :
    replTrig W_PRICE S_PRICE exMulti = 97 :: 10 :: S_PRICE := by
  unfold replTrig
  rw [go_true_none _ _ _ (by decide)]
  show replTrigGo W_PRICE S_PRICE false (97 :: 10 :: 10 :: 112 :: 114 :: 105 :: 99 :: [101]) = _
  rw [go_false_cons_ne _ _ 97 _ (by decide), go_false_cons_10,
    go_true_some _ _ _ 6 (by decide),
    show (10 :: 112 :: 114 :: 105 :: 99 :: [101] : List Nat).drop 6 = [] from rfl,
    go_false_nil, List.append_nil]

theorem replTrig_after_price (w r : List Nat)
    (h1 : anchorMatch w (97 :: 10 :: S_PRICE) = none)
    (h3 : anchorMatch w S_PRICE = none) :
    replTrig w r (97 :: 10 :: S_PRICE) = 97 :: 10 :: S_PRICE := by
  unfold replTrig
  rw [go_true_none w r _ h1, go_false_cons_ne w r 97 _ (by decide), go_false_cons_10,
    go_true_none w r _ h3, replTrigGo_false_id w r _ (by decide)]

theorem safeBody_exMulti : safeBody exMulti = 97 :: 10 :: S_PRICE := by
  rw [safeBody_eq_fold,
    show trimWS (collNL (replRN exMulti)) = exMulti from by decide,
    replTrig_exMulti_id W_REPORT S_REPORT (by decide) (by decide) (by decide),
    replTrig_price_exMulti,
    replTrig_after_price W_QUOTE S_QUOTE (by decide) (by decide),
    replTrig_after_price W_PROPOSAL S_PROPOSAL (by decide) (by decide),
    replTrig_after_price W_SCREENSHOT S_SCREENSHOT (by decide) (by decide)]

/-! # C9: trigger-word line substitution -/

/-- C9 (amended): for single-line bodies (no newline or carriage-return
characters) the soften table acts exactly line-scoped: a body whose
trimmed content is (case-insensitively) exactly one trigger word becomes
that word's fixed replacement sentence, and a body whose trimmed content
is not exactly a trigger word — a trigger word embedded in a longer line
in particular — is left as its trimmed self.  In multi-line bodies the
substitution also absorbs whitespace (including blank lines) immediately
before the trigger line, as the evaluation of `"a\n\nprice"` shows. -/
theorem safeBody_trigger_lines :
    (∀ (t w r : List Nat), (w, r) ∈ soften → ¬10 ∈ t → ¬13 ∈ t →
      low (trimWS t) = w → safeBody t = r) ∧
    (∀ t : List Nat, ¬10 ∈ t → ¬13 ∈ t →
      (∀ p ∈ soften, ¬low (trimWS t) = p.1) → safeBody t = trimWS t) ∧
    safeBody exMulti = 97 :: 10 :: S_PRICE :=
  ⟨safeBody_word_line, safeBody_untouched, safeBody_exMulti⟩

theorem safeBody_trigger_lines_witness :
    safeBody W_PRICE = S_PRICE ∧ safeBody exEmbed = trimWS exEmbed :=
  ⟨safeBody_trigger_lines.1 W_PRICE W_PRICE S_PRICE (by decide) (by decide) (by decide)
      (by decide),
   safeBody_trigger_lines.2.1 exEmbed (by decide) (by decide) (by decide)⟩

/-- C9 counterexample: in the body `"a\n\nprice"` the trigger line
`"price"` is replaced, but the regex's leading `\s*` also swallows the
preceding blank line: the result is `"a\n" ++ sentence`, not
`"a\n\n" ++ sentence` — refuting the claim that the substitution replaces
only the trigger-word line. -/
theorem safeBody_line_cex :
    safeBody exMulti = 97 :: 10 :: S_PRICE ∧
    ¬safeBody exMulti = 97 :: 10 :: 10 :: S_PRICE := by
  refine ⟨safeBody_exMulti, ?_⟩
  rw [safeBody_exMulti]
  decide
